import Mathlib

/-!
Verification of the room-state coordinator of a video-conference backend
(`server.js`): room membership, per-room whiteboard log and task board,
broadcast routing, chat bridge and WebRTC signaling relay.

The in-memory stores `rooms`, `whiteboardData` and `taskBoards` are plain
JS objects keyed by room id; we embed them as association lists with the
JS object semantics (at most one binding per key, `delete` removes the
binding).  Socket.IO rooms and event-listener registrations are embedded
by the `handlers` list: each `join-room` execution both joins the
Socket.IO room and registers one set of room-scoped listeners closed over
that room id, so `handlers` carries one `(socketId, roomId)` pair per join,
in registration order; Socket.IO room membership is its deduplication.
Broadcasts resolve their recipient set at emission time, as Socket.IO does.
-/

namespace VCS

/-- JS object lookup `m[k]` (keys are unique in a JS object, we return the
first binding). -/
def alookup {α : Type} : List (String × α) → String → Option α
  | [], _ => none
  | (k, v) :: rest, q => if k = q then some v else alookup rest q

/-- JS object assignment `m[k] = v`. -/
def aset {α : Type} : List (String × α) → String → α → List (String × α)
  | [], q, v => [(q, v)]
  | (k, w) :: rest, q, v => if k = q then (q, v) :: rest else (k, w) :: aset rest q v

/-- JS `delete m[k]`. -/
def aerase {α : Type} : List (String × α) → String → List (String × α)
  | [], _ => []
  | (k, w) :: rest, q => if k = q then aerase rest q else (k, w) :: aerase rest q

/-- One entry of `rooms[roomId]`: `{ socketId, username }` (server.js line 65). -/
structure Member where
  socketId : String
  username : String
deriving DecidableEq, Repr

/-- A whiteboard stroke is an opaque payload to the server. -/
abbrev Stroke : Type := String

/-- The task-board snapshot `{ todo: [...], inprogress: [...], done: [...] }`;
items are opaque to the server. -/
structure TaskBoard where
  todo : List String
  inprogress : List String
  done : List String
deriving DecidableEq, Repr

/-- The default skeleton `{ todo: [], inprogress: [], done: [] }`
(server.js lines 91, 141). -/
def defaultBoard : TaskBoard := ⟨[], [], []⟩

/-- A chat message document (`models/Message.js`): roomId, sender, text,
createdAt. -/
structure Msg where
  roomId : String
  sender : String
  text : String
  createdAt : Nat
deriving DecidableEq, Repr

/-- Insert a message into a list sorted ascending by `createdAt`. -/
def insertByTime (m : Msg) : List Msg → List Msg
  | [] => [m]
  | x :: xs => if m.createdAt ≤ x.createdAt then m :: x :: xs else x :: insertByTime m xs

/-- Sort ascending by `createdAt` (the effect of Mongo `.sort({ createdAt: 1 })`). -/
def sortByTime : List Msg → List Msg
  | [] => []
  | m :: ms => insertByTime m (sortByTime ms)

/-- The history query of the join handler (server.js lines 77-80):
`Message.find({ roomId }).sort({ createdAt: 1 }).limit(200)` — filter the
store by room, sort ascending by creation time, keep the first 200. -/
def loadRecent (store : List Msg) (r : String) : List Msg :=
  (sortByTime (store.filter (fun m => m.roomId == r))).take 200

/-- Modelled from the spec: "the most recent 200 in ascending chronological
order" — what §4.6 `loadRecent` promises.  Sort ascending, keep the LAST
200.  Kept separate from `loadRecent` (the code) to compare the two. -/
def mostRecentAscending (store : List Msg) (r : String) : List Msg :=
  let s := sortByTime (store.filter (fun m => m.roomId == r))
  s.drop (s.length - 200)

/-- Server→client events, with their payloads (server.js). -/
inductive OutEvent where
  | usersUpdate (members : List Member)
  | userJoined (m : Member)
  | userLeft (socketId : String)
  | messagesInitial (msgs : List Msg)
  | whiteboardInitial (strokes : List Stroke)
  | whiteboardDrawOut (stroke : Stroke)
  | whiteboardUndoOut (strokes : Option (List Stroke))
  | whiteboardRedoOut (strokes : Option (List Stroke))
  | whiteboardClearOut
  | messageNew (msg : Msg)
  | tasksUpdateOut (board : TaskBoard)
  | offerOut (sdp caller : String)
  | answerOut (sdp caller : String)
  | iceCandidateOut (candidate source : String)
deriving DecidableEq, Repr

/-- How an emission was addressed: `io.to(room)` (inclusive),
`socket.to(room)` (room minus the emitting socket), or a single-socket
target (`socket.emit` / `io.to(socketId)`). -/
inductive EmitKind where
  | inclusive (room : String)
  | exceptSender (room : String) (sender : String)
  | unicast (target : String)
deriving DecidableEq, Repr

/-- One emission: its addressing kind, the recipient set resolved at
emission time, and the event. -/
structure Emit where
  kind : EmitKind
  recipients : List String
  event : OutEvent
deriving DecidableEq, Repr

/-- The whole coordinator state: live sockets, registered room-scoped
handler closures (= Socket.IO room membership, see header), and the three
in-memory stores of server.js lines 40-42, plus the external Mongo message
store. -/
structure ServerState where
  connected : List String
  handlers : List (String × String)
  rooms : List (String × List Member)
  whiteboardData : List (String × List Stroke)
  taskBoards : List (String × TaskBoard)
  messages : List Msg
deriving DecidableEq, Repr

/-- Socket ids currently in Socket.IO room `r` (each `socket.join(r)` is
recorded by a `handlers` pair; the room is a set, hence `dedup`). -/
def ioRoomMembers (st : ServerState) (r : String) : List String :=
  ((st.handlers.filter (fun h => h.2 == r)).map (fun h => h.1)).dedup

/-- `io.to(room).emit(...)`: deliver to every socket in the room. -/
def emitInclusive (st : ServerState) (r : String) (ev : OutEvent) : Emit :=
  ⟨.inclusive r, ioRoomMembers st r, ev⟩

/-- `socket.to(room).emit(...)`: deliver to every socket in the room except
the emitting socket. -/
def emitExceptSender (st : ServerState) (r : String) (sender : String) (ev : OutEvent) : Emit :=
  ⟨.exceptSender r sender, (ioRoomMembers st r).filter (fun x => x ≠ sender), ev⟩

/-- `socket.emit(...)` / `io.to(socketId).emit(...)`: deliver to the target
socket if it is still connected, to nobody otherwise. -/
def emitUnicast (st : ServerState) (t : String) (ev : OutEvent) : Emit :=
  ⟨.unicast t, if t ∈ st.connected then [t] else [], ev⟩

/-- The room ids of the handler sets registered for socket `sid`, in
registration order (one per executed `join-room`). -/
def sessionsOf (st : ServerState) (sid : String) : List String :=
  (st.handlers.filter (fun h => h.1 == sid)).map (fun h => h.2)

/-- Socket ids of the current membership list of room `r` (empty if the
room key is absent). -/
def memberIds (st : ServerState) (r : String) : List String :=
  ((alookup st.rooms r).getD []).map (fun m => m.socketId)

/-- Whether some connection is currently joined to room `r`. -/
def roomJoined (st : ServerState) (r : String) : Bool :=
  st.handlers.any (fun h => h.2 == r)

/-- Client→server events.  `dbOk` stands for the outcome of the
corresponding external-store operation; `now` for `Date.now()`.  Missing
payload strings are embedded as `""` (both are falsy in JS and the server
only tests them for truthiness or uses them as keys it never populates). -/
inductive Event where
  | connect (sid : String)
  | joinRoom (sid roomId username : String) (dbOk : Bool)
  | whiteboardDraw (sid : String) (stroke : Stroke)
  | whiteboardUndo (sid : String) (strokes : Option (List Stroke))
  | whiteboardRedo (sid : String) (strokes : Option (List Stroke))
  | whiteboardClear (sid : String)
  | sendMessage (sid roomId sender text : String) (now : Nat) (dbOk : Bool)
  | tasksGet (sid roomId : String)
  | tasksUpdate (sid roomId : String) (tasks : Option TaskBoard)
  | offer (sid target sdp : String)
  | answer (sid target sdp : String)
  | iceCandidate (sid target candidate : String)
  | disconnect (sid : String)
deriving DecidableEq, Repr

/-- Run one registered handler body per session room, in registration
order, threading the state and concatenating the emissions (Socket.IO
dispatches an event to every listener registered for it on that socket). -/
def runHandlers (f : String → ServerState → ServerState × List Emit) :
    List String → ServerState → ServerState × List Emit
  | [], st => (st, [])
  | r :: rs, st =>
    let p := f r st
    let q := runHandlers f rs p.1
    (q.1, p.2 ++ q.2)

/-- `rooms[roomId].filter((u) => u.socketId !== socket.id)` (server.js
line 173). -/
def dropSid (sid : String) (l : List Member) : List Member :=
  l.filter (fun m => m.socketId ≠ sid)

/-- The body of one `disconnect` listener (server.js lines 169-184), closed
over its join's `roomId`: filter this socket out of the membership list,
rebroadcast presence, announce the departure, and if the room became empty
(`length === 0`) delete the membership list, the whiteboard log and the
task board. -/
def discBody (sid : String) (r : String) (st : ServerState) : ServerState × List Emit :=
  match alookup st.rooms r with
  | none => (st, [])
  | some lst =>
    let lst2 := dropSid sid lst
    let st1 := { st with rooms := aset st.rooms r lst2 }
    let ems := [emitInclusive st1 r (.usersUpdate lst2),
                emitExceptSender st1 r sid (.userLeft sid)]
    if lst2.length = 0 then
      ({ st1 with rooms := aerase st1.rooms r,
                  whiteboardData := aerase st1.whiteboardData r,
                  taskBoards := aerase st1.taskBoards r }, ems)
    else (st1, ems)

/-- `whiteboard:draw` listener body (server.js lines 98-102): append the
stroke (creating the log if unseen) and echo it to the room minus the
sender. -/
def drawBody (sid : String) (stroke : Stroke) (r : String) (s : ServerState) :
    ServerState × List Emit :=
  let wb := aset s.whiteboardData r ((alookup s.whiteboardData r).getD [] ++ [stroke])
  let s1 := { s with whiteboardData := wb }
  (s1, [emitExceptSender s1 r sid (.whiteboardDrawOut stroke)])

/-- `whiteboard:undo` listener body (server.js lines 105-108): replace the
log wholesale with the client-supplied array (`strokes || []`). -/
def undoBody (sid : String) (strokes : Option (List Stroke)) (r : String) (s : ServerState) :
    ServerState × List Emit :=
  let s1 := { s with whiteboardData := aset s.whiteboardData r (strokes.getD []) }
  (s1, [emitExceptSender s1 r sid (.whiteboardUndoOut strokes)])

/-- `whiteboard:redo` listener body (server.js lines 111-114): same
wholesale replace as undo, different echoed event name. -/
def redoBody (sid : String) (strokes : Option (List Stroke)) (r : String) (s : ServerState) :
    ServerState × List Emit :=
  let s1 := { s with whiteboardData := aset s.whiteboardData r (strokes.getD []) }
  (s1, [emitExceptSender s1 r sid (.whiteboardRedoOut strokes)])

/-- `whiteboard:clear` listener body (server.js lines 117-120): empty the
log and notify the whole room. -/
def clearBody (_sid : String) (r : String) (s : ServerState) : ServerState × List Emit :=
  let s1 := { s with whiteboardData := aset s.whiteboardData r [] }
  (s1, [emitInclusive s1 r .whiteboardClearOut])

/-- `send-message` listener body (server.js lines 125-133): no-op on empty
room or text; otherwise persist (sender defaulting to "Guest") and, when
the store write succeeds, broadcast `message:new` to the payload's room.
The payload room, not the closure room, keys everything here. -/
def sendMessageBody (r sender text : String) (now : Nat) (dbOk : Bool)
    (_closureRoom : String) (s : ServerState) : ServerState × List Emit :=
  if r = "" ∨ text = "" then (s, [])
  else if dbOk then
    let msg : Msg := ⟨r, if sender = "" then "Guest" else sender, text, now⟩
    ({ s with messages := s.messages ++ [msg] }, [emitInclusive s r (.messageNew msg)])
  else (s, [])

/-- `tasks:get` listener body (server.js lines 140-142): reply to the sender
with the payload room's board or the default skeleton. -/
def tasksGetBody (sid r : String) (_closureRoom : String) (s : ServerState) :
    ServerState × List Emit :=
  (s, [emitUnicast s sid (.tasksUpdateOut ((alookup s.taskBoards r).getD defaultBoard))])

/-- `tasks:update` listener body (server.js lines 144-148): no-op on falsy
room or tasks; otherwise store the board under the payload's room key and
broadcast it to that room — the sender's membership is never consulted. -/
def tasksUpdateBody (r : String) (tasks : Option TaskBoard)
    (_closureRoom : String) (s : ServerState) : ServerState × List Emit :=
  match tasks with
  | none => (s, [])
  | some board =>
    if r = "" then (s, [])
    else ({ s with taskBoards := aset s.taskBoards r board },
          [emitInclusive s r (.tasksUpdateOut board)])

/-- `offer` listener body (server.js lines 154-156): relay to the target
socket, enriching with `caller = socket.id`; falsy target is a no-op. -/
def offerBody (sid target sdp : String) (_closureRoom : String) (s : ServerState) :
    ServerState × List Emit :=
  if target = "" then (s, []) else (s, [emitUnicast s target (.offerOut sdp sid)])

/-- `answer` listener body (server.js lines 158-160). -/
def answerBody (sid target sdp : String) (_closureRoom : String) (s : ServerState) :
    ServerState × List Emit :=
  if target = "" then (s, []) else (s, [emitUnicast s target (.answerOut sdp sid)])

/-- `ice-candidate` listener body (server.js lines 162-164), enriching with
`from = socket.id`. -/
def iceBody (sid target candidate : String) (_closureRoom : String) (s : ServerState) :
    ServerState × List Emit :=
  if target = "" then (s, [])
  else (s, [emitUnicast s target (.iceCandidateOut candidate sid)])

/-- One event processed to completion (the server is single-threaded per
event; external-store outcomes are carried by the event).  Events of a
socket that is not connected cannot occur; they are dead branches.  Every
room-scoped handler runs once per `join-room` that registered it. -/
def step (st : ServerState) (e : Event) : ServerState × List Emit :=
  match e with
  | .connect sid =>
    if sid ∈ st.connected then (st, [])
    else ({ st with connected := sid :: st.connected }, [])
  | .joinRoom sid roomId username dbOk =>
    if sid ∈ st.connected then
      if roomId = "" ∨ username = "" then (st, [])
      else
        let newList := (alookup st.rooms roomId).getD [] ++ [⟨sid, username⟩]
        let st1 := { st with
          handlers := st.handlers ++ [(sid, roomId)],
          rooms := aset st.rooms roomId newList }
        (st1,
         [emitInclusive st1 roomId (.usersUpdate ((alookup st1.rooms roomId).getD [])),
          emitExceptSender st1 roomId sid (.userJoined ⟨sid, username⟩),
          emitUnicast st1 sid (.messagesInitial
            (if dbOk then loadRecent st.messages roomId else [])),
          emitUnicast st1 sid (.whiteboardInitial ((alookup st.whiteboardData roomId).getD [])),
          emitUnicast st1 sid (.tasksUpdateOut ((alookup st.taskBoards roomId).getD defaultBoard))])
    else (st, [])
  | .whiteboardDraw sid stroke =>
    if sid ∈ st.connected then runHandlers (drawBody sid stroke) (sessionsOf st sid) st
    else (st, [])
  | .whiteboardUndo sid strokes =>
    if sid ∈ st.connected then runHandlers (undoBody sid strokes) (sessionsOf st sid) st
    else (st, [])
  | .whiteboardRedo sid strokes =>
    if sid ∈ st.connected then runHandlers (redoBody sid strokes) (sessionsOf st sid) st
    else (st, [])
  | .whiteboardClear sid =>
    if sid ∈ st.connected then runHandlers (clearBody sid) (sessionsOf st sid) st
    else (st, [])
  | .sendMessage sid r sender text now dbOk =>
    if sid ∈ st.connected then
      runHandlers (sendMessageBody r sender text now dbOk) (sessionsOf st sid) st
    else (st, [])
  | .tasksGet sid r =>
    if sid ∈ st.connected then runHandlers (tasksGetBody sid r) (sessionsOf st sid) st
    else (st, [])
  | .tasksUpdate sid r tasks =>
    if sid ∈ st.connected then runHandlers (tasksUpdateBody r tasks) (sessionsOf st sid) st
    else (st, [])
  | .offer sid target sdp =>
    if sid ∈ st.connected then runHandlers (offerBody sid target sdp) (sessionsOf st sid) st
    else (st, [])
  | .answer sid target sdp =>
    if sid ∈ st.connected then runHandlers (answerBody sid target sdp) (sessionsOf st sid) st
    else (st, [])
  | .iceCandidate sid target candidate =>
    if sid ∈ st.connected then
      runHandlers (iceBody sid target candidate) (sessionsOf st sid) st
    else (st, [])
  | .disconnect sid =>
    if sid ∈ st.connected then
      let sess := sessionsOf st sid
      let st0 := { st with
        connected := st.connected.erase sid,
        handlers := st.handlers.filter (fun h => h.1 ≠ sid) }
      runHandlers (discBody sid) sess st0
    else (st, [])

/-- Run a sequence of events, keeping only the state. -/
def execState (st : ServerState) : List Event → ServerState
  | [] => st
  | e :: es => execState (step st e).1 es

/-- The fresh server state: no sockets, no rooms, no ephemeral state; the
external message store may hold anything (it is durable). -/
def initState (store : List Msg) : ServerState := ⟨[], [], [], [], [], store⟩

/-- A state the server can actually be in. -/
def Reachable (st : ServerState) : Prop :=
  ∃ store es, execState (initState store) es = st

/-- The membership list of room `r`, empty when the key is absent. -/
def membersOf (st : ServerState) (r : String) : List Member :=
  (alookup st.rooms r).getD []

/-- Is `e` a join that room `r` counts, at state `st`: a `join-room` from a
live socket with nonempty room and username, targeting `r`. -/
def isJoinTo (r : String) (st : ServerState) : Event → Bool
  | .joinRoom sid ro us _ =>
      decide (sid ∈ st.connected) && !(decide (ro = "")) && !(decide (us = "")) && (ro == r)
  | _ => false

/-- Is `e` a leave that room `r` counts, at state `st`: a disconnect of a
live socket currently in `r`'s membership list. -/
def isLeaveFrom (r : String) (st : ServerState) : Event → Bool
  | .disconnect sid => decide (sid ∈ st.connected) && decide (sid ∈ memberIds st r)
  | _ => false

/-- Number of joins of room `r` along a run. -/
def countJoins (r : String) : ServerState → List Event → Nat
  | _, [] => 0
  | st, e :: es => (if isJoinTo r st e then 1 else 0) + countJoins r (step st e).1 es

/-- Number of leaves of room `r` along a run. -/
def countLeaves (r : String) : ServerState → List Event → Nat
  | _, [] => 0
  | st, e :: es => (if isLeaveFrom r st e then 1 else 0) + countLeaves r (step st e).1 es

/-- `e` is not a counted join of `r` by a socket already in `r`'s list. -/
def cleanJoinAt (r : String) (st : ServerState) : Event → Bool
  | .joinRoom sid ro us _ =>
      !(decide (sid ∈ st.connected)) || decide (ro = "") || decide (us = "")
        || !(ro == r) || !(decide (sid ∈ memberIds st r))
  | _ => true

/-- No event of the run joins room `r` on behalf of a socket that is
already in `r`'s membership list. -/
def cleanJoins (r : String) : ServerState → List Event → Bool
  | _, [] => true
  | st, e :: es => cleanJoinAt r st e && cleanJoins r (step st e).1 es

/-- What one pass of the disconnect body leaves of a membership binding:
filter the socket out, and drop the binding if that empties it. -/
def postMembers (sid : String) : Option (List Member) → Option (List Member)
  | none => none
  | some l => if dropSid sid l = [] then none else some (dropSid sid l)

/-- Whether the disconnect of `sid` empties a membership binding. -/
def emptiedBy (sid : String) : Option (List Member) → Prop
  | none => False
  | some l => dropSid sid l = []

instance instDecidableEmptiedBy (sid : String) (o : Option (List Member)) :
    Decidable (emptiedBy sid o) :=
  match o with
  | none => isFalse (fun h => h)
  | some l => if h : dropSid sid l = [] then isTrue h else isFalse h

/-- The state invariant maintained by every event: connected sockets are
distinct; every registered handler belongs to a connected socket; a socket
has a handler set for exactly the rooms whose membership list contains it;
membership bindings are never empty; and a whiteboard log only exists for
rooms someone is joined to. -/
def Inv (st : ServerState) : Prop :=
  st.connected.Nodup
  ∧ (∀ p ∈ st.handlers, p.1 ∈ st.connected)
  ∧ (∀ x r, (x, r) ∈ st.handlers ↔ x ∈ memberIds st r)
  ∧ (∀ r l, alookup st.rooms r = some l → l ≠ [])
  ∧ (∀ r, (alookup st.whiteboardData r).isSome = true → roomJoined st r = true)

/-- A 201-message store for one room, created in ascending time order. -/
def store201 : List Msg := (List.range 201).map (fun i => ⟨"chat", "u", "t", i⟩)

/-- A state with one socket `a` joined to room `r`. -/
def demoA : ServerState :=
  execState (initState []) [.connect "a", .joinRoom "a" "r" "u" true]

/-- `demoA` plus a second connected (not yet joined) socket `b`. -/
def demoB : ServerState :=
  execState (initState []) [.connect "a", .joinRoom "a" "r" "u" true, .connect "b"]

/-- A state with a single connected socket `s` and the 201-message store. -/
def c4State : ServerState := execState (initState store201) [.connect "s"]

/-- A state with a single connected socket `s`, empty store. -/
def demoC : ServerState := execState (initState []) [.connect "s"]

/-- A run in which the only member of room `a` writes the task board of an
unoccupied room `b`. -/
def c1BadTrace : List Event :=
  [.connect "s1", .joinRoom "s1" "a" "u" true, .tasksUpdate "s1" "b" (some ⟨["x"], [], []⟩)]

def c1Bad : ServerState := execState (initState []) c1BadTrace

/-- A run in which a socket joins the same room twice and then disconnects. -/
def c2BadTrace : List Event :=
  [.connect "s", .joinRoom "s" "r" "u" true, .joinRoom "s" "r" "u" true, .disconnect "s"]

/-- A run producing a room whose membership list holds two entries for
socket `s` and one for `s2`. -/
def c3Trace : List Event :=
  [.connect "s", .joinRoom "s" "r" "u" true, .joinRoom "s" "r" "u" true,
   .connect "s2", .joinRoom "s2" "r" "v" true]

def c3State : ServerState := execState (initState []) c3Trace

/-! ### Association-list lemmas (JS object semantics) -/

theorem alookup_aset_self {α : Type} (m : List (String × α)) (k : String) (v : α) :
    alookup (aset m k v) k = some v := by
  induction m with
  | nil => simp [aset, alookup]
  | cons hd tl ih =>
    obtain ⟨k1, v1⟩ := hd
    by_cases h : k1 = k
    · simp [aset, alookup, h]
    · simp [aset, alookup, h, ih]

theorem alookup_aset_ne {α : Type} (m : List (String × α)) (k q : String) (v : α)
    (h : q ≠ k) : alookup (aset m k v) q = alookup m q := by
  induction m with
  | nil => simp [aset, alookup, Ne.symm h]
  | cons hd tl ih =>
    obtain ⟨k1, v1⟩ := hd
    by_cases h1 : k1 = k
    · subst h1
      simp [aset, alookup, Ne.symm h]
    · simp [aset, alookup, h1, ih]

theorem alookup_aerase_self {α : Type} (m : List (String × α)) (k : String) :
    alookup (aerase m k) k = none := by
  induction m with
  | nil => simp [aerase, alookup]
  | cons hd tl ih =>
    obtain ⟨k1, v1⟩ := hd
    by_cases h : k1 = k
    · simp [aerase, h, ih]
    · simp [aerase, alookup, h, ih]

theorem alookup_aerase_ne {α : Type} (m : List (String × α)) (k q : String)
    (h : q ≠ k) : alookup (aerase m k) q = alookup m q := by
  induction m with
  | nil => simp [aerase]
  | cons hd tl ih =>
    obtain ⟨k1, v1⟩ := hd
    by_cases h1 : k1 = k
    · subst h1
      simp [aerase, alookup, Ne.symm h, ih]
    · simp [aerase, alookup, h1, ih]

/-! ### Generic `runHandlers` lemmas -/

theorem runHandlers_pres {f : String → ServerState → ServerState × List Emit}
    (P : ServerState → Prop) (hf : ∀ r s, P s → P (f r s).1) :
    ∀ rs st, P st → P (runHandlers f rs st).1 := by
  intro rs
  induction rs with
  | nil => intro st h; exact h
  | cons r rest ih => intro st h; exact ih _ (hf r st h)

theorem runHandlers_const_state {f : String → ServerState → ServerState × List Emit}
    (hf : ∀ r s, (f r s).1 = s) :
    ∀ rs st, (runHandlers f rs st).1 = st := by
  intro rs
  induction rs with
  | nil => intro st; rfl
  | cons r rest ih =>
    intro st
    show (runHandlers f rest (f r st).1).1 = st
    rw [hf, ih]

theorem runHandlers_ems_mem {f : String → ServerState → ServerState × List Emit}
    (hH : ∀ r s, ((f r s).1).handlers = s.handlers)
    (hC : ∀ r s, ((f r s).1).connected = s.connected) :
    ∀ rs st em, em ∈ (runHandlers f rs st).2 →
      ∃ r s, r ∈ rs ∧ s.handlers = st.handlers ∧ s.connected = st.connected ∧ em ∈ (f r s).2 := by
  intro rs
  induction rs with
  | nil => intro st em h; simp [runHandlers] at h
  | cons r rest ih =>
    intro st em h
    show ∃ _, _
    have hsplit : em ∈ (f r st).2 ∨ em ∈ (runHandlers f rest (f r st).1).2 := by
      have : em ∈ (f r st).2 ++ (runHandlers f rest (f r st).1).2 := h
      exact List.mem_append.mp this
    rcases hsplit with h1 | h1
    · exact ⟨r, st, by simp, rfl, rfl, h1⟩
    · obtain ⟨r2, s2, hr2, hh2, hc2, hm2⟩ := ih (f r st).1 em h1
      exact ⟨r2, s2, by simp [hr2], by rw [hh2, hH], by rw [hc2, hC], hm2⟩

/-! ### Membership helpers -/

theorem mem_sessionsOf {st : ServerState} {sid q : String} :
    q ∈ sessionsOf st sid ↔ (sid, q) ∈ st.handlers := by
  constructor
  · intro h
    simp only [sessionsOf, List.mem_map, List.mem_filter, beq_iff_eq] at h
    obtain ⟨⟨a, b⟩, ⟨hmem, heq⟩, hx⟩ := h
    simp only at heq hx
    rw [heq] at hmem
    rw [hx] at hmem
    exact hmem
  · intro h
    simp only [sessionsOf, List.mem_map, List.mem_filter, beq_iff_eq]
    exact ⟨(sid, q), ⟨h, rfl⟩, rfl⟩

theorem mem_ioRoomMembers {st : ServerState} {x r : String} :
    x ∈ ioRoomMembers st r ↔ (x, r) ∈ st.handlers := by
  constructor
  · intro h
    simp only [ioRoomMembers, List.mem_dedup, List.mem_map, List.mem_filter,
      beq_iff_eq] at h
    obtain ⟨⟨a, b⟩, ⟨hmem, heq⟩, hx⟩ := h
    simp only at heq hx
    rw [heq] at hmem
    rw [hx] at hmem
    exact hmem
  · intro h
    simp only [ioRoomMembers, List.mem_dedup, List.mem_map, List.mem_filter,
      beq_iff_eq]
    exact ⟨(x, r), ⟨h, rfl⟩, rfl⟩

theorem roomJoined_iff {st : ServerState} {r : String} :
    roomJoined st r = true ↔ ∃ x, (x, r) ∈ st.handlers := by
  simp only [roomJoined, List.any_eq_true, beq_iff_eq]
  constructor
  · rintro ⟨⟨a, b⟩, hmem, heq⟩
    simp only at heq
    rw [heq] at hmem
    exact ⟨a, hmem⟩
  · rintro ⟨x, hx⟩
    exact ⟨(x, r), hx, rfl⟩

theorem runHandlers_proj {β : Type} {f : String → ServerState → ServerState × List Emit}
    (g : ServerState → β) (hf : ∀ r s, g ((f r s).1) = g s) :
    ∀ rs st, g ((runHandlers f rs st).1) = g st := by
  intro rs
  induction rs with
  | nil => intro st; rfl
  | cons r rest ih =>
    intro st
    show g ((runHandlers f rest ((f r st).1)).1) = g st
    rw [ih, hf]

theorem runHandlers_pure {f : String → ServerState → ServerState × List Emit}
    (hf : ∀ r s, (f r s).1 = s) :
    ∀ rs st, runHandlers f rs st = (st, (rs.map (fun r => (f r st).2)).flatten) := by
  intro rs
  induction rs with
  | nil => intro st; simp [runHandlers]
  | cons r rest ih =>
    intro st
    show ((runHandlers f rest ((f r st).1)).1,
          (f r st).2 ++ (runHandlers f rest ((f r st).1)).2) = _
    rw [hf, ih]
    simp

theorem run_wbset_lookup {f : String → ServerState → ServerState × List Emit}
    {v : List Stroke}
    (hf : ∀ r s, (f r s).1 = { s with whiteboardData := aset s.whiteboardData r v }) :
    ∀ rs st q, alookup ((runHandlers f rs st).1).whiteboardData q =
      if q ∈ rs then some v else alookup st.whiteboardData q := by
  intro rs
  induction rs with
  | nil => intro st q; simp [runHandlers]
  | cons r rest ih =>
    intro st q
    have hstep : (runHandlers f (r :: rest) st).1 = (runHandlers f rest ((f r st).1)).1 := rfl
    rw [hstep, ih, hf]
    by_cases hq : q ∈ rest
    · simp [hq]
    · by_cases hqr : q = r
      · subst hqr
        simp [hq, alookup_aset_self]
      · simp [hq, hqr, alookup_aset_ne _ _ _ _ hqr]

theorem run_wbappend_lookup {f : String → ServerState → ServerState × List Emit}
    {k : Stroke}
    (hf : ∀ r s, (f r s).1 = { s with whiteboardData := aset s.whiteboardData r ((alookup s.whiteboardData r).getD [] ++ [k]) }) :
    ∀ rs st q, alookup ((runHandlers f rs st).1).whiteboardData q =
      if rs.count q = 0 then alookup st.whiteboardData q
      else some ((alookup st.whiteboardData q).getD [] ++ List.replicate (rs.count q) k) := by
  intro rs
  induction rs with
  | nil => intro st q; simp [runHandlers]
  | cons r rest ih =>
    intro st q
    have hstep : (runHandlers f (r :: rest) st).1 = (runHandlers f rest ((f r st).1)).1 := rfl
    rw [hstep, ih, hf]
    by_cases hqr : q = r
    · subst hqr
      cases hn : rest.count q with
      | zero =>
        simp [hn, List.count_cons, alookup_aset_self]
      | succ n =>
        simp [hn, List.count_cons, alookup_aset_self, List.replicate_succ]
    · have hlook : alookup (aset st.whiteboardData r
          ((alookup st.whiteboardData r).getD [] ++ [k])) q = alookup st.whiteboardData q :=
        alookup_aset_ne _ _ _ _ hqr
      simp [List.count_cons, hqr, hlook]

/-! ### Disconnect handler characterization -/

theorem filter_idem {α : Type} (f : α → Bool) (l : List α) :
    (l.filter f).filter f = l.filter f := by
  induction l with
  | nil => rfl
  | cons a t ih =>
    by_cases h : f a = true
    · simp [List.filter_cons, h, ih]
    · simp [List.filter_cons, h, ih]

theorem dropSid_idem (sid : String) (l : List Member) :
    dropSid sid (dropSid sid l) = dropSid sid l :=
  filter_idem _ _

theorem postMembers_idem (sid : String) (o : Option (List Member)) :
    postMembers sid (postMembers sid o) = postMembers sid o := by
  cases o with
  | none => rfl
  | some l =>
    by_cases h : dropSid sid l = []
    · simp [postMembers, h]
    · simp [postMembers, h, dropSid_idem]

theorem not_emptiedBy_postMembers (sid : String) (o : Option (List Member)) :
    ¬ emptiedBy sid (postMembers sid o) := by
  cases o with
  | none => exact fun h => h
  | some l =>
    by_cases h : dropSid sid l = []
    · simp [postMembers, h, emptiedBy]
    · simp [postMembers, h, emptiedBy, dropSid_idem]

theorem discBody_handlers (sid r : String) (st : ServerState) :
    ((discBody sid r st).1).handlers = st.handlers := by
  cases h : alookup st.rooms r with
  | none => simp [discBody, h]
  | some lst =>
    by_cases he : dropSid sid lst = []
    · simp [discBody, h, he]
    · simp [discBody, h, he]

theorem discBody_connected (sid r : String) (st : ServerState) :
    ((discBody sid r st).1).connected = st.connected := by
  cases h : alookup st.rooms r with
  | none => simp [discBody, h]
  | some lst =>
    by_cases he : dropSid sid lst = []
    · simp [discBody, h, he]
    · simp [discBody, h, he]

theorem discBody_messages (sid r : String) (st : ServerState) :
    ((discBody sid r st).1).messages = st.messages := by
  cases h : alookup st.rooms r with
  | none => simp [discBody, h]
  | some lst =>
    by_cases he : dropSid sid lst = []
    · simp [discBody, h, he]
    · simp [discBody, h, he]

theorem discBody_rooms_lookup (sid r : String) (st : ServerState) (q : String) :
    alookup ((discBody sid r st).1).rooms q =
      if q = r then postMembers sid (alookup st.rooms r) else alookup st.rooms q := by
  cases h : alookup st.rooms r with
  | none =>
    by_cases hq : q = r
    · subst hq; simp [discBody, h, postMembers]
    · simp [discBody, h, postMembers, hq]
  | some lst =>
    by_cases he : dropSid sid lst = []
    · by_cases hq : q = r
      · subst hq
        simp [discBody, h, he, postMembers, alookup_aerase_self]
      · simp [discBody, h, he, postMembers, hq,
          alookup_aerase_ne _ _ _ hq, alookup_aset_ne _ _ _ _ hq]
    · by_cases hq : q = r
      · subst hq
        simp [discBody, h, he, postMembers, alookup_aset_self]
      · simp [discBody, h, he, postMembers, hq, alookup_aset_ne _ _ _ _ hq]

theorem discBody_wb_lookup (sid r : String) (st : ServerState) (q : String) :
    alookup ((discBody sid r st).1).whiteboardData q =
      if q = r ∧ emptiedBy sid (alookup st.rooms r) then none
      else alookup st.whiteboardData q := by
  cases h : alookup st.rooms r with
  | none => simp [discBody, h, emptiedBy]
  | some lst =>
    by_cases he : dropSid sid lst = []
    · by_cases hq : q = r
      · subst hq
        simp [discBody, h, he, emptiedBy, alookup_aerase_self]
      · simp [discBody, h, he, emptiedBy, hq, alookup_aerase_ne _ _ _ hq]
    · simp [discBody, h, he, emptiedBy]

theorem discBody_tb_lookup (sid r : String) (st : ServerState) (q : String) :
    alookup ((discBody sid r st).1).taskBoards q =
      if q = r ∧ emptiedBy sid (alookup st.rooms r) then none
      else alookup st.taskBoards q := by
  cases h : alookup st.rooms r with
  | none => simp [discBody, h, emptiedBy]
  | some lst =>
    by_cases he : dropSid sid lst = []
    · by_cases hq : q = r
      · subst hq
        simp [discBody, h, he, emptiedBy, alookup_aerase_self]
      · simp [discBody, h, he, emptiedBy, hq, alookup_aerase_ne _ _ _ hq]
    · simp [discBody, h, he, emptiedBy]

theorem discRun_handlers (sid : String) (rs : List String) (st : ServerState) :
    ((runHandlers (discBody sid) rs st).1).handlers = st.handlers :=
  runHandlers_pres (fun s => s.handlers = st.handlers)
    (fun r s hs => by
      show ((discBody sid r s).1).handlers = st.handlers
      rw [discBody_handlers]; exact hs) rs st rfl

theorem discRun_connected (sid : String) (rs : List String) (st : ServerState) :
    ((runHandlers (discBody sid) rs st).1).connected = st.connected :=
  runHandlers_pres (fun s => s.connected = st.connected)
    (fun r s hs => by
      show ((discBody sid r s).1).connected = st.connected
      rw [discBody_connected]; exact hs) rs st rfl

theorem discRun_messages (sid : String) (rs : List String) (st : ServerState) :
    ((runHandlers (discBody sid) rs st).1).messages = st.messages :=
  runHandlers_pres (fun s => s.messages = st.messages)
    (fun r s hs => by
      show ((discBody sid r s).1).messages = st.messages
      rw [discBody_messages]; exact hs) rs st rfl

theorem discRun_rooms_lookup (sid : String) :
    ∀ (rs : List String) (st : ServerState) (q : String),
      alookup ((runHandlers (discBody sid) rs st).1).rooms q =
        if q ∈ rs then postMembers sid (alookup st.rooms q) else alookup st.rooms q := by
  intro rs
  induction rs with
  | nil => intro st q; simp [runHandlers]
  | cons r rest ih =>
    intro st q
    have hstep : (runHandlers (discBody sid) (r :: rest) st).1 =
        (runHandlers (discBody sid) rest ((discBody sid r st).1)).1 := rfl
    rw [hstep, ih]
    by_cases hq : q ∈ rest
    · simp only [hq, if_true]
      rw [discBody_rooms_lookup]
      by_cases hqr : q = r
      · subst hqr
        simp [postMembers_idem]
      · simp [hqr, hq]
    · simp only [hq, if_false]
      rw [discBody_rooms_lookup]
      by_cases hqr : q = r
      · subst hqr
        simp
      · simp [hqr, hq]

theorem discRun_wb_lookup (sid : String) :
    ∀ (rs : List String) (st : ServerState) (q : String),
      alookup ((runHandlers (discBody sid) rs st).1).whiteboardData q =
        if q ∈ rs ∧ emptiedBy sid (alookup st.rooms q) then none
        else alookup st.whiteboardData q := by
  intro rs
  induction rs with
  | nil => intro st q; simp [runHandlers]
  | cons r rest ih =>
    intro st q
    have hstep : (runHandlers (discBody sid) (r :: rest) st).1 =
        (runHandlers (discBody sid) rest ((discBody sid r st).1)).1 := rfl
    rw [hstep, ih, discBody_wb_lookup, discBody_rooms_lookup]
    by_cases hqr : q = r
    · subst hqr
      by_cases he : emptiedBy sid (alookup st.rooms q)
      · simp [he, not_emptiedBy_postMembers]
      · simp [he, not_emptiedBy_postMembers]
    · simp only [hqr, if_neg, ite_false, if_false]
      by_cases hq : q ∈ rest
      · simp [hq, hqr]
      · simp [hq, hqr]

theorem discRun_tb_lookup (sid : String) :
    ∀ (rs : List String) (st : ServerState) (q : String),
      alookup ((runHandlers (discBody sid) rs st).1).taskBoards q =
        if q ∈ rs ∧ emptiedBy sid (alookup st.rooms q) then none
        else alookup st.taskBoards q := by
  intro rs
  induction rs with
  | nil => intro st q; simp [runHandlers]
  | cons r rest ih =>
    intro st q
    have hstep : (runHandlers (discBody sid) (r :: rest) st).1 =
        (runHandlers (discBody sid) rest ((discBody sid r st).1)).1 := rfl
    rw [hstep, ih, discBody_tb_lookup, discBody_rooms_lookup]
    by_cases hqr : q = r
    · subst hqr
      by_cases he : emptiedBy sid (alookup st.rooms q)
      · simp [he, not_emptiedBy_postMembers]
      · simp [he, not_emptiedBy_postMembers]
    · simp only [hqr, if_neg, ite_false, if_false]
      by_cases hq : q ∈ rest
      · simp [hq, hqr]
      · simp [hq, hqr]

/-! ### Invariant preservation -/

theorem roomJoined_of_handler {st : ServerState} {x r : String}
    (h : (x, r) ∈ st.handlers) : roomJoined st r = true :=
  roomJoined_iff.mpr ⟨x, h⟩

theorem mem_filter_fst_ne {l : List (String × String)} {x q sid : String} :
    (x, q) ∈ l.filter (fun h => h.1 ≠ sid) ↔ (x, q) ∈ l ∧ x ≠ sid := by
  simp [List.mem_filter]

theorem dropSid_eq_nil_iff {sid : String} {l : List Member} :
    dropSid sid l = [] ↔ ∀ m ∈ l, m.socketId = sid := by
  simp [dropSid, List.filter_eq_nil_iff]

theorem mem_map_dropSid {sid x : String} {l : List Member} :
    x ∈ (dropSid sid l).map (fun m => m.socketId) ↔
      x ∈ l.map (fun m => m.socketId) ∧ x ≠ sid := by
  simp only [dropSid, List.mem_map, List.mem_filter, decide_eq_true_eq]
  constructor
  · rintro ⟨m, ⟨hm, hne⟩, rfl⟩
    exact ⟨⟨m, hm, rfl⟩, hne⟩
  · rintro ⟨⟨m, hm, rfl⟩, hne⟩
    exact ⟨m, ⟨hm, hne⟩, rfl⟩

theorem Inv_of_fields {st st2 : ServerState}
    (hc : st2.connected = st.connected) (hh : st2.handlers = st.handlers)
    (hr : st2.rooms = st.rooms)
    (hwb : ∀ q, (alookup st2.whiteboardData q).isSome = true → roomJoined st q = true)
    (hInv : Inv st) : Inv st2 := by
  obtain ⟨h0, h1, h2, h3, h4⟩ := hInv
  have hm : ∀ r, memberIds st2 r = memberIds st r := by
    intro r
    unfold memberIds
    rw [hr]
  have hj : ∀ r, roomJoined st2 r = roomJoined st r := by
    intro r
    unfold roomJoined
    rw [hh]
  refine ⟨?_, ?_, ?_, ?_, ?_⟩
  · rw [hc]; exact h0
  · rw [hh, hc]; exact h1
  · intro x r
    rw [hh, hm]
    exact h2 x r
  · intro r l
    rw [hr]
    exact h3 r l
  · intro r hs
    rw [hj]
    exact hwb r hs

theorem sendMessageBody_state (r sender text : String) (now : Nat) (dbOk : Bool)
    (cr : String) (s : ServerState) :
    ((sendMessageBody r sender text now dbOk cr s).1).connected = s.connected
    ∧ ((sendMessageBody r sender text now dbOk cr s).1).handlers = s.handlers
    ∧ ((sendMessageBody r sender text now dbOk cr s).1).rooms = s.rooms
    ∧ ((sendMessageBody r sender text now dbOk cr s).1).whiteboardData = s.whiteboardData
    ∧ ((sendMessageBody r sender text now dbOk cr s).1).taskBoards = s.taskBoards := by
  unfold sendMessageBody
  by_cases h1 : r = "" ∨ text = ""
  · simp [h1]
  · cases dbOk <;> simp [h1]

theorem tasksUpdateBody_state (r : String) (tasks : Option TaskBoard)
    (cr : String) (s : ServerState) :
    ((tasksUpdateBody r tasks cr s).1).connected = s.connected
    ∧ ((tasksUpdateBody r tasks cr s).1).handlers = s.handlers
    ∧ ((tasksUpdateBody r tasks cr s).1).rooms = s.rooms
    ∧ ((tasksUpdateBody r tasks cr s).1).whiteboardData = s.whiteboardData
    ∧ ((tasksUpdateBody r tasks cr s).1).messages = s.messages := by
  unfold tasksUpdateBody
  cases tasks with
  | none => simp
  | some b =>
    by_cases h : r = ""
    · simp [h]
    · simp [h]

theorem offerBody_state (sid t sdp cr : String) (s : ServerState) :
    (offerBody sid t sdp cr s).1 = s := by
  unfold offerBody
  split <;> rfl

theorem answerBody_state (sid t sdp cr : String) (s : ServerState) :
    (answerBody sid t sdp cr s).1 = s := by
  unfold answerBody
  split <;> rfl

theorem iceBody_state (sid t c cr : String) (s : ServerState) :
    (iceBody sid t c cr s).1 = s := by
  unfold iceBody
  split <;> rfl

theorem tasksGetBody_state (sid r cr : String) (s : ServerState) :
    (tasksGetBody sid r cr s).1 = s := rfl

theorem Inv_join (st : ServerState) (sid r u : String)
    (hc : sid ∈ st.connected) (hInv : Inv st) :
    Inv { st with
          handlers := st.handlers ++ [(sid, r)],
          rooms := aset st.rooms r ((alookup st.rooms r).getD [] ++ [⟨sid, u⟩]) } := by
  obtain ⟨h0, h1, h2, h3, h4⟩ := hInv
  refine ⟨h0, ?_, ?_, ?_, ?_⟩
  · intro p hp
    rcases List.mem_append.mp hp with h | h
    · exact h1 p h
    · rw [List.mem_singleton] at h
      subst h
      exact hc
  · intro x q
    by_cases hqr : q = r
    · subst hqr
      constructor
      · intro hx
        unfold memberIds
        rw [alookup_aset_self]
        simp only [Option.getD_some, List.map_append, List.mem_append]
        rcases List.mem_append.mp hx with h | h
        · exact Or.inl ((h2 x q).mp h)
        · simp only [List.mem_singleton, Prod.mk.injEq] at h
          right
          simp [h.1]
      · intro hx
        unfold memberIds at hx
        rw [alookup_aset_self] at hx
        simp only [Option.getD_some, List.map_append, List.mem_append] at hx
        rcases hx with h | h
        · exact List.mem_append_left _ ((h2 x q).mpr h)
        · simp only [List.map_cons, List.map_nil, List.mem_singleton] at h
          subst h
          exact List.mem_append_right _ (by simp)
    · constructor
      · intro hx
        unfold memberIds
        rw [alookup_aset_ne _ _ _ _ hqr]
        rcases List.mem_append.mp hx with h | h
        · exact (h2 x q).mp h
        · simp only [List.mem_singleton, Prod.mk.injEq] at h
          exact absurd h.2 hqr
      · intro hx
        unfold memberIds at hx
        rw [alookup_aset_ne _ _ _ _ hqr] at hx
        exact List.mem_append_left _ ((h2 x q).mpr hx)
  · intro q l hl
    by_cases hqr : q = r
    · subst hqr
      rw [alookup_aset_self] at hl
      cases hl
      simp
    · rw [alookup_aset_ne _ _ _ _ hqr] at hl
      exact h3 q l hl
  · intro q hs
    have hj := h4 q hs
    rw [roomJoined_iff] at hj
    obtain ⟨x, hx⟩ := hj
    exact roomJoined_of_handler (List.mem_append_left _ hx)

theorem Inv_disconnect (st : ServerState) (sid : String) (hInv : Inv st) :
    Inv (runHandlers (discBody sid) (sessionsOf st sid)
          { st with
            connected := st.connected.erase sid,
            handlers := st.handlers.filter (fun h => h.1 ≠ sid) }).1 := by
  obtain ⟨h0, h1, h2, h3, h4⟩ := hInv
  set stf := (runHandlers (discBody sid) (sessionsOf st sid)
    { st with
      connected := st.connected.erase sid,
      handlers := st.handlers.filter (fun h => h.1 ≠ sid) }).1 with hstf
  have hfH : stf.handlers = st.handlers.filter (fun h => h.1 ≠ sid) :=
    discRun_handlers sid _ _
  have hfC : stf.connected = st.connected.erase sid :=
    discRun_connected sid _ _
  have hR : ∀ q, alookup stf.rooms q =
      if q ∈ sessionsOf st sid then postMembers sid (alookup st.rooms q)
      else alookup st.rooms q :=
    fun q => discRun_rooms_lookup sid _ _ q
  have hW : ∀ q, alookup stf.whiteboardData q =
      if q ∈ sessionsOf st sid ∧ emptiedBy sid (alookup st.rooms q) then none
      else alookup st.whiteboardData q :=
    fun q => discRun_wb_lookup sid _ _ q
  refine ⟨?_, ?_, ?_, ?_, ?_⟩
  · rw [hfC]
    exact h0.erase sid
  · intro p hp
    rw [hfH] at hp
    rw [hfC]
    obtain ⟨hpm, hpne⟩ := List.mem_filter.mp hp
    have hpne2 : p.1 ≠ sid := by simpa using hpne
    rw [List.mem_erase_of_ne hpne2]
    exact h1 p hpm
  · intro x q
    rw [hfH, mem_filter_fst_ne]
    unfold memberIds
    rw [hR q]
    by_cases hq : q ∈ sessionsOf st sid
    · rw [if_pos hq]
      have hsidq : (sid, q) ∈ st.handlers := mem_sessionsOf.mp hq
      have hsidm : sid ∈ memberIds st q := (h2 sid q).mp hsidq
      cases hl : alookup st.rooms q with
      | none =>
        exfalso
        unfold memberIds at hsidm
        rw [hl] at hsidm
        simp at hsidm
      | some l =>
        by_cases hnil : dropSid sid l = []
        · rw [show postMembers sid (some l) = none by simp [postMembers, hnil]]
          simp only [Option.getD_none, List.map_nil, List.not_mem_nil, iff_false,
            not_and]
          intro hxh hxne
          have hxm := (h2 x q).mp hxh
          unfold memberIds at hxm
          rw [hl] at hxm
          simp only [Option.getD_some] at hxm
          rw [dropSid_eq_nil_iff] at hnil
          obtain ⟨m, hm, rfl⟩ := List.mem_map.mp hxm
          exact hxne (hnil m hm)
        · rw [show postMembers sid (some l) = some (dropSid sid l) by
            simp [postMembers, hnil]]
          simp only [Option.getD_some]
          rw [mem_map_dropSid]
          constructor
          · rintro ⟨hxh, hxne⟩
            refine ⟨?_, hxne⟩
            have hxm := (h2 x q).mp hxh
            unfold memberIds at hxm
            rw [hl] at hxm
            simpa using hxm
          · rintro ⟨hxm, hxne⟩
            refine ⟨?_, hxne⟩
            apply (h2 x q).mpr
            unfold memberIds
            rw [hl]
            simpa using hxm
    · rw [if_neg hq]
      have hsidq : (sid, q) ∉ st.handlers := fun h => hq (mem_sessionsOf.mpr h)
      have hsidm : sid ∉ memberIds st q := fun h => hsidq ((h2 sid q).mpr h)
      constructor
      · rintro ⟨hxh, _⟩
        exact (h2 x q).mp hxh
      · intro hxm
        refine ⟨(h2 x q).mpr hxm, ?_⟩
        rintro rfl
        exact hsidm hxm
  · intro q l hl
    rw [hR q] at hl
    by_cases hq : q ∈ sessionsOf st sid
    · rw [if_pos hq] at hl
      cases hl0 : alookup st.rooms q with
      | none =>
        rw [hl0] at hl
        simp [postMembers] at hl
      | some l0 =>
        rw [hl0] at hl
        by_cases hnil : dropSid sid l0 = []
        · simp [postMembers, hnil] at hl
        · simp only [postMembers, hnil, if_neg, ite_false, Option.some.injEq] at hl
          subst hl
          exact hnil
    · rw [if_neg hq] at hl
      exact h3 q l hl
  · intro q hs
    rw [hW q] at hs
    by_cases hcond : q ∈ sessionsOf st sid ∧ emptiedBy sid (alookup st.rooms q)
    · rw [if_pos hcond] at hs
      simp at hs
    · rw [if_neg hcond] at hs
      have hj := h4 q hs
      rw [roomJoined_iff] at hj
      obtain ⟨x, hx⟩ := hj
      by_cases hxs : x = sid
      · rw [hxs] at hx
        have hqs : q ∈ sessionsOf st sid := mem_sessionsOf.mpr hx
        have hsidm : sid ∈ memberIds st q := (h2 sid q).mp hx
        cases hl0 : alookup st.rooms q with
        | none =>
          exfalso
          unfold memberIds at hsidm
          rw [hl0] at hsidm
          simp at hsidm
        | some l0 =>
          by_cases hnil : dropSid sid l0 = []
          · exact absurd ⟨hqs, by rw [hl0]; exact hnil⟩ hcond
          · obtain ⟨m, hm⟩ := List.exists_mem_of_ne_nil _ hnil
            have hm0 : m ∈ l0 ∧ m.socketId ≠ sid := by
              simpa [dropSid] using hm
            have hxh : (m.socketId, q) ∈ st.handlers := by
              apply (h2 _ q).mpr
              unfold memberIds
              rw [hl0]
              simp only [Option.getD_some, List.mem_map]
              exact ⟨m, hm0.1, rfl⟩
            exact roomJoined_of_handler
              (by rw [hfH, mem_filter_fst_ne]; exact ⟨hxh, hm0.2⟩)
      · exact roomJoined_of_handler
          (by rw [hfH, mem_filter_fst_ne]; exact ⟨hx, hxs⟩)

theorem step_inv (st : ServerState) (e : Event) (hInv : Inv st) : Inv (step st e).1 := by
  have hcopy := hInv
  obtain ⟨h0, h1, h2, h3, h4⟩ := hcopy
  cases e with
  | connect sid =>
    by_cases hc : sid ∈ st.connected
    · simpa [step, hc] using hInv
    · simp only [step, if_neg hc]
      refine ⟨List.nodup_cons.mpr ⟨hc, h0⟩, ?_, h2, h3, h4⟩
      intro p hp
      exact List.mem_cons_of_mem _ (h1 p hp)
  | joinRoom sid r u ok =>
    by_cases hc : sid ∈ st.connected
    · by_cases hv : r = "" ∨ u = ""
      · simpa [step, hc, hv] using hInv
      · simp only [step, if_pos hc, if_neg hv]
        exact Inv_join st sid r u hc hInv
    · simpa [step, hc] using hInv
  | whiteboardDraw sid k =>
    by_cases hc : sid ∈ st.connected
    · simp only [step, if_pos hc]
      refine Inv_of_fields ?_ ?_ ?_ ?_ hInv
      · exact runHandlers_proj (fun s => s.connected) (fun r s => rfl) _ _
      · exact runHandlers_proj (fun s => s.handlers) (fun r s => rfl) _ _
      · exact runHandlers_proj (fun s => s.rooms) (fun r s => rfl) _ _
      · intro q hs
        rw [run_wbappend_lookup (fun r s => rfl)] at hs
        by_cases hcnt : (sessionsOf st sid).count q = 0
        · rw [if_pos hcnt] at hs
          exact h4 q hs
        · have hqmem : q ∈ sessionsOf st sid := by
            by_contra hq
            exact hcnt (List.count_eq_zero.mpr hq)
          exact roomJoined_of_handler (mem_sessionsOf.mp hqmem)
    · simpa [step, hc] using hInv
  | whiteboardUndo sid ss =>
    by_cases hc : sid ∈ st.connected
    · simp only [step, if_pos hc]
      refine Inv_of_fields ?_ ?_ ?_ ?_ hInv
      · exact runHandlers_proj (fun s => s.connected) (fun r s => rfl) _ _
      · exact runHandlers_proj (fun s => s.handlers) (fun r s => rfl) _ _
      · exact runHandlers_proj (fun s => s.rooms) (fun r s => rfl) _ _
      · intro q hs
        rw [run_wbset_lookup (fun r s => rfl)] at hs
        by_cases hq : q ∈ sessionsOf st sid
        · exact roomJoined_of_handler (mem_sessionsOf.mp hq)
        · rw [if_neg hq] at hs
          exact h4 q hs
    · simpa [step, hc] using hInv
  | whiteboardRedo sid ss =>
    by_cases hc : sid ∈ st.connected
    · simp only [step, if_pos hc]
      refine Inv_of_fields ?_ ?_ ?_ ?_ hInv
      · exact runHandlers_proj (fun s => s.connected) (fun r s => rfl) _ _
      · exact runHandlers_proj (fun s => s.handlers) (fun r s => rfl) _ _
      · exact runHandlers_proj (fun s => s.rooms) (fun r s => rfl) _ _
      · intro q hs
        rw [run_wbset_lookup (fun r s => rfl)] at hs
        by_cases hq : q ∈ sessionsOf st sid
        · exact roomJoined_of_handler (mem_sessionsOf.mp hq)
        · rw [if_neg hq] at hs
          exact h4 q hs
    · simpa [step, hc] using hInv
  | whiteboardClear sid =>
    by_cases hc : sid ∈ st.connected
    · simp only [step, if_pos hc]
      refine Inv_of_fields ?_ ?_ ?_ ?_ hInv
      · exact runHandlers_proj (fun s => s.connected) (fun r s => rfl) _ _
      · exact runHandlers_proj (fun s => s.handlers) (fun r s => rfl) _ _
      · exact runHandlers_proj (fun s => s.rooms) (fun r s => rfl) _ _
      · intro q hs
        rw [run_wbset_lookup (fun r s => rfl)] at hs
        by_cases hq : q ∈ sessionsOf st sid
        · exact roomJoined_of_handler (mem_sessionsOf.mp hq)
        · rw [if_neg hq] at hs
          exact h4 q hs
    · simpa [step, hc] using hInv
  | sendMessage sid r sender text now ok =>
    by_cases hc : sid ∈ st.connected
    · simp only [step, if_pos hc]
      refine Inv_of_fields ?_ ?_ ?_ ?_ hInv
      · exact runHandlers_proj (fun s => s.connected)
          (fun cr s => (sendMessageBody_state r sender text now ok cr s).1) _ _
      · exact runHandlers_proj (fun s => s.handlers)
          (fun cr s => (sendMessageBody_state r sender text now ok cr s).2.1) _ _
      · exact runHandlers_proj (fun s => s.rooms)
          (fun cr s => (sendMessageBody_state r sender text now ok cr s).2.2.1) _ _
      · intro q hs
        have hwbEq := runHandlers_proj (fun s => s.whiteboardData)
          (fun cr s => (sendMessageBody_state r sender text now ok cr s).2.2.2.1)
          (sessionsOf st sid) st
        rw [hwbEq] at hs
        exact h4 q hs
    · simpa [step, hc] using hInv
  | tasksGet sid r =>
    by_cases hc : sid ∈ st.connected
    · simp only [step, if_pos hc]
      rw [runHandlers_const_state (fun cr s => tasksGetBody_state sid r cr s)]
      exact hInv
    · simpa [step, hc] using hInv
  | tasksUpdate sid r tasks =>
    by_cases hc : sid ∈ st.connected
    · simp only [step, if_pos hc]
      refine Inv_of_fields ?_ ?_ ?_ ?_ hInv
      · exact runHandlers_proj (fun s => s.connected)
          (fun cr s => (tasksUpdateBody_state r tasks cr s).1) _ _
      · exact runHandlers_proj (fun s => s.handlers)
          (fun cr s => (tasksUpdateBody_state r tasks cr s).2.1) _ _
      · exact runHandlers_proj (fun s => s.rooms)
          (fun cr s => (tasksUpdateBody_state r tasks cr s).2.2.1) _ _
      · intro q hs
        have hwbEq := runHandlers_proj (fun s => s.whiteboardData)
          (fun cr s => (tasksUpdateBody_state r tasks cr s).2.2.2.1)
          (sessionsOf st sid) st
        rw [hwbEq] at hs
        exact h4 q hs
    · simpa [step, hc] using hInv
  | offer sid t sdp =>
    by_cases hc : sid ∈ st.connected
    · simp only [step, if_pos hc]
      rw [runHandlers_const_state (fun cr s => offerBody_state sid t sdp cr s)]
      exact hInv
    · simpa [step, hc] using hInv
  | answer sid t sdp =>
    by_cases hc : sid ∈ st.connected
    · simp only [step, if_pos hc]
      rw [runHandlers_const_state (fun cr s => answerBody_state sid t sdp cr s)]
      exact hInv
    · simpa [step, hc] using hInv
  | iceCandidate sid t cand =>
    by_cases hc : sid ∈ st.connected
    · simp only [step, if_pos hc]
      rw [runHandlers_const_state (fun cr s => iceBody_state sid t cand cr s)]
      exact hInv
    · simpa [step, hc] using hInv
  | disconnect sid =>
    by_cases hc : sid ∈ st.connected
    · simp only [step, if_pos hc]
      exact Inv_disconnect st sid hInv
    · simpa [step, hc] using hInv

theorem initState_inv (store : List Msg) : Inv (initState store) := by
  refine ⟨List.nodup_nil, ?_, ?_, ?_, ?_⟩
  · intro p hp
    simp [initState] at hp
  · intro x r
    simp [initState, memberIds, alookup]
  · intro r l hl
    simp [initState, alookup] at hl
  · intro r hs
    simp [initState, alookup] at hs

theorem exec_inv (es : List Event) : ∀ st, Inv st → Inv (execState st es) := by
  induction es with
  | nil => intro st h; exact h
  | cons e es ih =>
    intro st h
    exact ih _ (step_inv st e h)

theorem reachable_inv {st : ServerState} (h : Reachable st) : Inv st := by
  obtain ⟨store, es, hst⟩ := h
  rw [← hst]
  exact exec_inv es _ (initState_inv store)

/-! ### Emission scope analysis -/

theorem emitInclusive_congr {s1 s2 : ServerState} (h : s1.handlers = s2.handlers)
    (r : String) (ev : OutEvent) : emitInclusive s1 r ev = emitInclusive s2 r ev := by
  simp [emitInclusive, ioRoomMembers, h]

theorem runHandlers_state_congr {f g : String → ServerState → ServerState × List Emit}
    (h : ∀ r s, (f r s).1 = (g r s).1) :
    ∀ rs st, (runHandlers f rs st).1 = (runHandlers g rs st).1 := by
  intro rs
  induction rs with
  | nil => intro st; rfl
  | cons r rest ih =>
    intro st
    show (runHandlers f rest ((f r st).1)).1 = (runHandlers g rest ((g r st).1)).1
    rw [h, ih]

theorem exec_append (es1 es2 : List Event) :
    ∀ st, execState st (es1 ++ es2) = execState (execState st es1) es2 := by
  induction es1 with
  | nil => intro st; rfl
  | cons e es ih =>
    intro st
    exact ih (step st e).1

theorem scopeOk_of_exceptSender {em : Emit} {s : ServerState} {r x : String}
    {ev : OutEvent} (h : em = emitExceptSender s r x ev) (H : List (String × String)) :
    (∀ q y, em.kind = .exceptSender q y → y ∉ em.recipients)
    ∧ (∀ q, em.kind = .inclusive q → ∀ z, z ∈ em.recipients ↔ (z, q) ∈ H) := by
  subst h
  constructor
  · intro q y hk
    simp only [emitExceptSender] at hk ⊢
    injection hk with h1 h2
    subst h2
    simp [List.mem_filter]
  · intro q hk
    simp [emitExceptSender] at hk

theorem scopeOk_of_inclusive {em : Emit} {s : ServerState} {r : String} {ev : OutEvent}
    {H : List (String × String)} (h : em = emitInclusive s r ev) (hH : s.handlers = H) :
    (∀ q y, em.kind = .exceptSender q y → y ∉ em.recipients)
    ∧ (∀ q, em.kind = .inclusive q → ∀ z, z ∈ em.recipients ↔ (z, q) ∈ H) := by
  subst h
  constructor
  · intro q y hk
    simp [emitInclusive] at hk
  · intro q hk
    simp only [emitInclusive] at hk ⊢
    injection hk with h1
    subst h1
    intro z
    rw [← hH]
    exact mem_ioRoomMembers

theorem scopeOk_of_unicast {em : Emit} {s : ServerState} {t : String} {ev : OutEvent}
    (h : em = emitUnicast s t ev) (H : List (String × String)) :
    (∀ q y, em.kind = .exceptSender q y → y ∉ em.recipients)
    ∧ (∀ q, em.kind = .inclusive q → ∀ z, z ∈ em.recipients ↔ (z, q) ∈ H) := by
  subst h
  constructor
  · intro q y hk
    simp [emitUnicast] at hk
  · intro q hk
    simp [emitUnicast] at hk

theorem drawBody_ems (sid : String) (k : Stroke) (r : String) (s : ServerState) :
    (drawBody sid k r s).2 = [emitExceptSender s r sid (.whiteboardDrawOut k)] := rfl

theorem undoBody_ems (sid : String) (ss : Option (List Stroke)) (r : String)
    (s : ServerState) :
    (undoBody sid ss r s).2 = [emitExceptSender s r sid (.whiteboardUndoOut ss)] := rfl

theorem redoBody_ems (sid : String) (ss : Option (List Stroke)) (r : String)
    (s : ServerState) :
    (redoBody sid ss r s).2 = [emitExceptSender s r sid (.whiteboardRedoOut ss)] := rfl

theorem clearBody_ems (sid r : String) (s : ServerState) :
    (clearBody sid r s).2 = [emitInclusive s r .whiteboardClearOut] := rfl

theorem sendMessageBody_ems {r sender text : String} {now : Nat} {ok : Bool}
    {cr : String} {s : ServerState} {em : Emit}
    (h : em ∈ (sendMessageBody r sender text now ok cr s).2) :
    ∃ msg, em = emitInclusive s r (.messageNew msg) := by
  unfold sendMessageBody at h
  by_cases h1 : r = "" ∨ text = ""
  · simp [h1] at h
  · rw [if_neg h1] at h
    cases ok with
    | true =>
      simp at h
      exact ⟨_, h⟩
    | false => simp at h

theorem tasksUpdateBody_ems {r : String} {tasks : Option TaskBoard}
    {cr : String} {s : ServerState} {em : Emit}
    (h : em ∈ (tasksUpdateBody r tasks cr s).2) :
    ∃ b, em = emitInclusive s r (.tasksUpdateOut b) := by
  unfold tasksUpdateBody at h
  cases tasks with
  | none => simp at h
  | some b =>
    by_cases h1 : r = ""
    · simp [h1] at h
    · simp [h1] at h
      exact ⟨b, h⟩

theorem tasksGetBody_ems {sid r cr : String} {s : ServerState} {em : Emit}
    (h : em ∈ (tasksGetBody sid r cr s).2) :
    em = emitUnicast s sid (.tasksUpdateOut ((alookup s.taskBoards r).getD defaultBoard)) := by
  simpa [tasksGetBody] using h

theorem offerBody_ems {sid t sdp cr : String} {s : ServerState} {em : Emit}
    (h : em ∈ (offerBody sid t sdp cr s).2) :
    em = emitUnicast s t (.offerOut sdp sid) := by
  unfold offerBody at h
  by_cases ht : t = ""
  · simp [ht] at h
  · simp [ht] at h
    exact h

theorem answerBody_ems {sid t sdp cr : String} {s : ServerState} {em : Emit}
    (h : em ∈ (answerBody sid t sdp cr s).2) :
    em = emitUnicast s t (.answerOut sdp sid) := by
  unfold answerBody at h
  by_cases ht : t = ""
  · simp [ht] at h
  · simp [ht] at h
    exact h

theorem iceBody_ems {sid t c cr : String} {s : ServerState} {em : Emit}
    (h : em ∈ (iceBody sid t c cr s).2) :
    em = emitUnicast s t (.iceCandidateOut c sid) := by
  unfold iceBody at h
  by_cases ht : t = ""
  · simp [ht] at h
  · simp [ht] at h
    exact h

theorem discBody_ems {sid r : String} {s : ServerState} {em : Emit}
    (h : em ∈ (discBody sid r s).2) :
    (∃ l2, em = emitInclusive s r (.usersUpdate l2))
    ∨ em = emitExceptSender s r sid (.userLeft sid) := by
  unfold discBody at h
  cases hl : alookup s.rooms r with
  | none =>
    rw [hl] at h
    simp at h
  | some lst =>
    rw [hl] at h
    by_cases he : (dropSid sid lst).length = 0
    · simp only [he, if_true, if_pos] at h
      simp only [List.mem_cons, List.mem_singleton, List.not_mem_nil, or_false] at h
      rcases h with h | h
      · exact Or.inl ⟨dropSid sid lst, h⟩
      · exact Or.inr h
    · simp only [he, if_false, if_neg, not_false_iff] at h
      simp only [List.mem_cons, List.mem_singleton, List.not_mem_nil, or_false] at h
      rcases h with h | h
      · exact Or.inl ⟨dropSid sid lst, h⟩
      · exact Or.inr h

theorem step_emission_scopes (st : ServerState) (e : Event) :
    ∀ em ∈ (step st e).2,
      (∀ q y, em.kind = .exceptSender q y → y ∉ em.recipients)
      ∧ (∀ q, em.kind = .inclusive q →
          ∀ z, z ∈ em.recipients ↔ (z, q) ∈ ((step st e).1).handlers) := by
  cases e with
  | connect sid =>
    intro em hem
    by_cases hc : sid ∈ st.connected <;> simp [step, hc] at hem
  | joinRoom sid r u ok =>
    intro em hem
    by_cases hc : sid ∈ st.connected
    · by_cases hv : r = "" ∨ u = ""
      · simp [step, hc, hv] at hem
      · simp only [step, if_pos hc, if_neg hv] at hem ⊢
        simp only [List.mem_cons, List.not_mem_nil, or_false] at hem
        rcases hem with rfl | rfl | rfl | rfl | rfl
        · exact scopeOk_of_inclusive rfl rfl
        · exact scopeOk_of_exceptSender rfl _
        · exact scopeOk_of_unicast rfl _
        · exact scopeOk_of_unicast rfl _
        · exact scopeOk_of_unicast rfl _
    · simp [step, hc] at hem
  | whiteboardDraw sid k =>
    intro em hem
    by_cases hc : sid ∈ st.connected
    · simp only [step, if_pos hc] at hem ⊢
      obtain ⟨r2, s2, hr2, hh2, hc2, hm2⟩ :=
        runHandlers_ems_mem (fun r s => rfl) (fun r s => rfl) _ _ _ hem
      rw [drawBody_ems, List.mem_singleton] at hm2
      exact scopeOk_of_exceptSender hm2 _
    · simp [step, hc] at hem
  | whiteboardUndo sid ss =>
    intro em hem
    by_cases hc : sid ∈ st.connected
    · simp only [step, if_pos hc] at hem ⊢
      obtain ⟨r2, s2, hr2, hh2, hc2, hm2⟩ :=
        runHandlers_ems_mem (fun r s => rfl) (fun r s => rfl) _ _ _ hem
      rw [undoBody_ems, List.mem_singleton] at hm2
      exact scopeOk_of_exceptSender hm2 _
    · simp [step, hc] at hem
  | whiteboardRedo sid ss =>
    intro em hem
    by_cases hc : sid ∈ st.connected
    · simp only [step, if_pos hc] at hem ⊢
      obtain ⟨r2, s2, hr2, hh2, hc2, hm2⟩ :=
        runHandlers_ems_mem (fun r s => rfl) (fun r s => rfl) _ _ _ hem
      rw [redoBody_ems, List.mem_singleton] at hm2
      exact scopeOk_of_exceptSender hm2 _
    · simp [step, hc] at hem
  | whiteboardClear sid =>
    intro em hem
    by_cases hc : sid ∈ st.connected
    · simp only [step, if_pos hc] at hem ⊢
      obtain ⟨r2, s2, hr2, hh2, hc2, hm2⟩ :=
        runHandlers_ems_mem (fun r s => rfl) (fun r s => rfl) _ _ _ hem
      rw [clearBody_ems, List.mem_singleton] at hm2
      refine scopeOk_of_inclusive hm2 ?_
      rw [hh2, runHandlers_proj (fun s => s.handlers) (fun r s => rfl)]
    · simp [step, hc] at hem
  | sendMessage sid r sender text now ok =>
    intro em hem
    by_cases hc : sid ∈ st.connected
    · simp only [step, if_pos hc] at hem ⊢
      obtain ⟨r2, s2, hr2, hh2, hc2, hm2⟩ :=
        runHandlers_ems_mem
          (fun cr s => (sendMessageBody_state r sender text now ok cr s).2.1)
          (fun cr s => (sendMessageBody_state r sender text now ok cr s).1) _ _ _ hem
      obtain ⟨msg, hm⟩ := sendMessageBody_ems hm2
      refine scopeOk_of_inclusive hm ?_
      rw [hh2, runHandlers_proj (fun s => s.handlers)
        (fun cr s => (sendMessageBody_state r sender text now ok cr s).2.1)]
    · simp [step, hc] at hem
  | tasksGet sid r =>
    intro em hem
    by_cases hc : sid ∈ st.connected
    · simp only [step, if_pos hc] at hem ⊢
      obtain ⟨r2, s2, hr2, hh2, hc2, hm2⟩ :=
        runHandlers_ems_mem (fun cr s => rfl) (fun cr s => rfl) _ _ _ hem
      exact scopeOk_of_unicast (tasksGetBody_ems hm2) _
    · simp [step, hc] at hem
  | tasksUpdate sid r tasks =>
    intro em hem
    by_cases hc : sid ∈ st.connected
    · simp only [step, if_pos hc] at hem ⊢
      obtain ⟨r2, s2, hr2, hh2, hc2, hm2⟩ :=
        runHandlers_ems_mem
          (fun cr s => (tasksUpdateBody_state r tasks cr s).2.1)
          (fun cr s => (tasksUpdateBody_state r tasks cr s).1) _ _ _ hem
      obtain ⟨b, hm⟩ := tasksUpdateBody_ems hm2
      refine scopeOk_of_inclusive hm ?_
      rw [hh2, runHandlers_proj (fun s => s.handlers)
        (fun cr s => (tasksUpdateBody_state r tasks cr s).2.1)]
    · simp [step, hc] at hem
  | offer sid t sdp =>
    intro em hem
    by_cases hc : sid ∈ st.connected
    · simp only [step, if_pos hc] at hem ⊢
      obtain ⟨r2, s2, hr2, hh2, hc2, hm2⟩ :=
        runHandlers_ems_mem (fun cr s => by rw [offerBody_state])
          (fun cr s => by rw [offerBody_state]) _ _ _ hem
      exact scopeOk_of_unicast (offerBody_ems hm2) _
    · simp [step, hc] at hem
  | answer sid t sdp =>
    intro em hem
    by_cases hc : sid ∈ st.connected
    · simp only [step, if_pos hc] at hem ⊢
      obtain ⟨r2, s2, hr2, hh2, hc2, hm2⟩ :=
        runHandlers_ems_mem (fun cr s => by rw [answerBody_state])
          (fun cr s => by rw [answerBody_state]) _ _ _ hem
      exact scopeOk_of_unicast (answerBody_ems hm2) _
    · simp [step, hc] at hem
  | iceCandidate sid t cand =>
    intro em hem
    by_cases hc : sid ∈ st.connected
    · simp only [step, if_pos hc] at hem ⊢
      obtain ⟨r2, s2, hr2, hh2, hc2, hm2⟩ :=
        runHandlers_ems_mem (fun cr s => by rw [iceBody_state])
          (fun cr s => by rw [iceBody_state]) _ _ _ hem
      exact scopeOk_of_unicast (iceBody_ems hm2) _
    · simp [step, hc] at hem
  | disconnect sid =>
    intro em hem
    by_cases hc : sid ∈ st.connected
    · simp only [step, if_pos hc] at hem ⊢
      obtain ⟨r2, s2, hr2, hh2, hc2, hm2⟩ :=
        runHandlers_ems_mem (discBody_handlers sid) (discBody_connected sid) _ _ _ hem
      rcases discBody_ems hm2 with ⟨l2, hm⟩ | hm
      · refine scopeOk_of_inclusive hm ?_
        rw [hh2, discRun_handlers]
      · exact scopeOk_of_exceptSender hm _
    · simp [step, hc] at hem

theorem emitUnicast_congr {s1 s2 : ServerState} (h : s1.connected = s2.connected)
    (t : String) (ev : OutEvent) : emitUnicast s1 t ev = emitUnicast s2 t ev := by
  simp [emitUnicast, h]

/-! ### Claim C5 -/

/-- C5: every sender-exclusive broadcast (socket.to) excludes the identified
sender from its recipients, and every room-inclusive broadcast (io.to)
reaches exactly the connections in the room's current membership list —
the sender included whenever it is a member. -/
theorem c5_broadcast_delivery (st : ServerState) (hst : Reachable st) (e : Event) :
    ∀ em ∈ (step st e).2,
      (∀ q y, em.kind = .exceptSender q y → y ∉ em.recipients)
      ∧ (∀ q, em.kind = .inclusive q →
          ∀ z, z ∈ em.recipients ↔ z ∈ memberIds (step st e).1 q) := by
  intro em hem
  obtain ⟨hex, hinc⟩ := step_emission_scopes st e em hem
  have hInv2 := step_inv st e (reachable_inv hst)
  refine ⟨hex, fun q hk z => ?_⟩
  rw [hinc q hk z]
  exact hInv2.2.2.1 z q

/-- C5 witness: in the state where socket `a` is the only member of room
`r`, a `whiteboard:clear` from `a` broadcasts inclusively to `[a]`, and `a`
is in the room's membership afterwards. -/
theorem c5_witness :
    Reachable demoA
    ∧ (⟨.inclusive "r", ["a"], .whiteboardClearOut⟩ : Emit)
        ∈ (step demoA (.whiteboardClear "a")).2
    ∧ ("a" ∈ (["a"] : List String)
        ↔ "a" ∈ memberIds (step demoA (.whiteboardClear "a")).1 "r") := by
  refine ⟨⟨[], [.connect "a", .joinRoom "a" "r" "u" true], rfl⟩, by decide, ?_⟩
  exact (c5_broadcast_delivery demoA ⟨[], [.connect "a", .joinRoom "a" "r" "u" true], rfl⟩
    (.whiteboardClear "a") ⟨.inclusive "r", ["a"], .whiteboardClearOut⟩ (by decide)).2 "r" rfl "a"

/-! ### Claim C7 -/

/-- C7: offer, answer and ice-candidate relays enrich the delivered payload
with the originating socket id (`caller` / `from`), deliver only to the
requested target and only while that target is connected (an unknown or
disconnected target receives nothing, with no queueing and no error), and
never change any coordinator state. -/
theorem c7_signaling_relay (st : ServerState) (sid t sdp cand : String) :
    ((step st (.offer sid t sdp)).1 = st
      ∧ ∀ em ∈ (step st (.offer sid t sdp)).2, em = emitUnicast st t (.offerOut sdp sid))
    ∧ ((step st (.answer sid t sdp)).1 = st
      ∧ ∀ em ∈ (step st (.answer sid t sdp)).2, em = emitUnicast st t (.answerOut sdp sid))
    ∧ ((step st (.iceCandidate sid t cand)).1 = st
      ∧ ∀ em ∈ (step st (.iceCandidate sid t cand)).2,
          em = emitUnicast st t (.iceCandidateOut cand sid))
    ∧ (t ∉ st.connected → ∀ ev, (emitUnicast st t ev).recipients = []) := by
  refine ⟨⟨?_, ?_⟩, ⟨?_, ?_⟩, ⟨?_, ?_⟩, ?_⟩
  · by_cases hc : sid ∈ st.connected
    · simp only [step, if_pos hc]
      exact runHandlers_const_state (fun cr s => offerBody_state sid t sdp cr s) _ _
    · simp [step, hc]
  · intro em hem
    by_cases hc : sid ∈ st.connected
    · simp only [step, if_pos hc] at hem
      obtain ⟨r2, s2, hr2, hh2, hc2, hm2⟩ :=
        runHandlers_ems_mem (fun cr s => by rw [offerBody_state])
          (fun cr s => by rw [offerBody_state]) _ _ _ hem
      rw [offerBody_ems hm2]
      exact emitUnicast_congr hc2 _ _
    · simp [step, hc] at hem
  · by_cases hc : sid ∈ st.connected
    · simp only [step, if_pos hc]
      exact runHandlers_const_state (fun cr s => answerBody_state sid t sdp cr s) _ _
    · simp [step, hc]
  · intro em hem
    by_cases hc : sid ∈ st.connected
    · simp only [step, if_pos hc] at hem
      obtain ⟨r2, s2, hr2, hh2, hc2, hm2⟩ :=
        runHandlers_ems_mem (fun cr s => by rw [answerBody_state])
          (fun cr s => by rw [answerBody_state]) _ _ _ hem
      rw [answerBody_ems hm2]
      exact emitUnicast_congr hc2 _ _
    · simp [step, hc] at hem
  · by_cases hc : sid ∈ st.connected
    · simp only [step, if_pos hc]
      exact runHandlers_const_state (fun cr s => iceBody_state sid t cand cr s) _ _
    · simp [step, hc]
  · intro em hem
    by_cases hc : sid ∈ st.connected
    · simp only [step, if_pos hc] at hem
      obtain ⟨r2, s2, hr2, hh2, hc2, hm2⟩ :=
        runHandlers_ems_mem (fun cr s => by rw [iceBody_state])
          (fun cr s => by rw [iceBody_state]) _ _ _ hem
      rw [iceBody_ems hm2]
      exact emitUnicast_congr hc2 _ _
    · simp [step, hc] at hem
  · intro ht ev
    simp [emitUnicast, ht]

/-- C7 witness: from the state where only `a` is connected (and joined to
`r`), an offer targeting the unknown socket `b` leaves the state unchanged
and its single emission is the enriched unicast to `b`, which is delivered
to nobody. -/
theorem c7_witness :
    (step demoA (.offer "a" "b" "x")).1 = demoA
    ∧ (⟨.unicast "b", [], .offerOut "x" "a"⟩ : Emit) ∈ (step demoA (.offer "a" "b" "x")).2
    ∧ (⟨.unicast "b", [], .offerOut "x" "a"⟩ : Emit) = emitUnicast demoA "b" (.offerOut "x" "a")
    ∧ (emitUnicast demoA "b" (.offerOut "x" "a")).recipients = [] := by
  refine ⟨(c7_signaling_relay demoA "a" "b" "x" "y").1.1, by decide, ?_, ?_⟩
  · exact (c7_signaling_relay demoA "a" "b" "x" "y").1.2 _ (by decide)
  · exact (c7_signaling_relay demoA "a" "b" "x" "y").2.2.2 (by decide) _

/-! ### Claim C6 -/

/-- C6: undo and redo perform the identical wholesale replacement of the
stored stroke log with the supplied sequence (they produce equal states);
after a whiteboard-clear the stored log of the closure room is the empty
sequence; and a subsequent joiner of a room whose log is empty receives
`whiteboard:initial` with the empty sequence. -/
theorem c6_undo_redo_clear (st : ServerState) (sid : String) (ss : Option (List Stroke))
    (r u sid2 : String) (dbOk : Bool) :
    ((step st (.whiteboardUndo sid ss)).1 = (step st (.whiteboardRedo sid ss)).1)
    ∧ (sid ∈ st.connected → (sid, r) ∈ st.handlers →
        alookup ((step st (.whiteboardUndo sid ss)).1).whiteboardData r = some (ss.getD [])
        ∧ alookup ((step st (.whiteboardRedo sid ss)).1).whiteboardData r = some (ss.getD [])
        ∧ alookup ((step st (.whiteboardClear sid)).1).whiteboardData r = some [])
    ∧ ((alookup st.whiteboardData r).getD [] = [] → sid2 ∈ st.connected →
        ¬(r = "" ∨ u = "") →
        (⟨.unicast sid2, [sid2], .whiteboardInitial []⟩ : Emit)
          ∈ (step st (.joinRoom sid2 r u dbOk)).2) := by
  refine ⟨?_, ?_, ?_⟩
  · by_cases hc : sid ∈ st.connected
    · simp only [step, if_pos hc]
      exact @runHandlers_state_congr (undoBody sid ss) (redoBody sid ss)
        (fun r2 s => rfl) (sessionsOf st sid) st
    · simp [step, hc]
  · intro hc hmem
    have hsess : r ∈ sessionsOf st sid := mem_sessionsOf.mpr hmem
    refine ⟨?_, ?_, ?_⟩
    · simp only [step, if_pos hc]
      rw [run_wbset_lookup (fun r2 s => rfl), if_pos hsess]
    · simp only [step, if_pos hc]
      rw [run_wbset_lookup (fun r2 s => rfl), if_pos hsess]
    · simp only [step, if_pos hc]
      rw [run_wbset_lookup (fun r2 s => rfl), if_pos hsess]
  · intro hwb hc2 hv
    simp only [step, if_pos hc2, if_neg hv]
    rw [hwb]
    simp only [List.mem_cons]
    right; right; right; left
    simp [emitUnicast, hc2]

/-- C6 witness: concrete undo, clear, and empty-log join, in the one-member
room state. -/
theorem c6_witness :
    alookup ((step demoA (.whiteboardUndo "a" (some ["s1"]))).1).whiteboardData "r"
        = some ["s1"]
    ∧ alookup ((step demoA (.whiteboardClear "a")).1).whiteboardData "r" = some []
    ∧ (⟨.unicast "b", ["b"], .whiteboardInitial []⟩ : Emit)
        ∈ (step demoB (.joinRoom "b" "r" "v" true)).2 := by
  refine ⟨?_, ?_, ?_⟩
  · exact ((c6_undo_redo_clear demoA "a" (some ["s1"]) "r" "u" "b" true).2.1
      (by decide) (by decide)).1
  · exact ((c6_undo_redo_clear demoA "a" none "r" "u" "b" true).2.1
      (by decide) (by decide)).2.2
  · exact (c6_undo_redo_clear demoB "a" none "r" "v" "b" true).2.2
      (by decide) (by decide) (by decide)

/-! ### Claim C8 -/

theorem sendRun_noop1 (r sender text : String) (now : Nat) (ok : Bool)
    (h1 : r = "" ∨ text = "") :
    ∀ (rs : List String) (st : ServerState),
      runHandlers (sendMessageBody r sender text now ok) rs st = (st, []) := by
  intro rs
  induction rs with
  | nil => intro st; rfl
  | cons c rest ih =>
    intro st
    have hbody : sendMessageBody r sender text now ok c st = (st, []) := by
      unfold sendMessageBody
      rw [if_pos h1]
    simp [runHandlers, hbody, ih]

theorem sendRun_noop2 (r sender text : String) (now : Nat)
    (h1 : ¬(r = "" ∨ text = "")) :
    ∀ (rs : List String) (st : ServerState),
      runHandlers (sendMessageBody r sender text now false) rs st = (st, []) := by
  intro rs
  induction rs with
  | nil => intro st; rfl
  | cons c rest ih =>
    intro st
    have hbody : sendMessageBody r sender text now false c st = (st, []) := by
      unfold sendMessageBody
      rw [if_neg h1]
      simp
    simp [runHandlers, hbody, ih]

theorem sendRun_ok (r sender text : String) (now : Nat) (h1 : ¬(r = "" ∨ text = "")) :
    ∀ (rs : List String) (st : ServerState),
      runHandlers (sendMessageBody r sender text now true) rs st
        = ({ st with messages := st.messages ++ List.replicate rs.length (Msg.mk r (if sender = "" then "Guest" else sender) text now) },
           List.replicate rs.length (emitInclusive st r (.messageNew (Msg.mk r (if sender = "" then "Guest" else sender) text now)))) := by
  intro rs
  induction rs with
  | nil => intro st; simp [runHandlers]
  | cons c rest ih =>
    intro st
    have hbody : sendMessageBody r sender text now true c st
        = ({ st with messages := st.messages ++ [Msg.mk r (if sender = "" then "Guest" else sender) text now] },
           [emitInclusive st r (.messageNew (Msg.mk r (if sender = "" then "Guest" else sender) text now))]) := by
      unfold sendMessageBody
      rw [if_neg h1]
      simp
    simp only [runHandlers, hbody, ih]
    simp [List.replicate_succ, emitInclusive, ioRoomMembers, List.append_assoc]

/-- C8: a `send-message` whose room or text is empty is a complete no-op
(nothing persisted, nothing broadcast); otherwise, with the store write
succeeding, the message — its sender defaulting to "Guest" when empty — is
persisted (once per registered handler) and broadcast room-inclusively to
the payload's room. -/
theorem c8_send_message (st : ServerState) (sid r sender text : String) (now : Nat)
    (dbOk : Bool) :
    ((r = "" ∨ text = "") → step st (.sendMessage sid r sender text now dbOk) = (st, []))
    ∧ (¬(r = "" ∨ text = "") → sid ∈ st.connected → dbOk = true →
        step st (.sendMessage sid r sender text now dbOk)
          = ({ st with messages := st.messages ++ List.replicate (sessionsOf st sid).length (Msg.mk r (if sender = "" then "Guest" else sender) text now) },
             List.replicate (sessionsOf st sid).length (emitInclusive st r (.messageNew (Msg.mk r (if sender = "" then "Guest" else sender) text now))))) := by
  constructor
  · intro h1
    by_cases hc : sid ∈ st.connected
    · simp only [step, if_pos hc]
      exact sendRun_noop1 r sender text now dbOk h1 _ _
    · simp [step, hc]
  · intro h1 hc hok
    subst hok
    simp only [step, if_pos hc]
    exact sendRun_ok r sender text now h1 _ _

/-- C8 witness: an empty room id is a no-op; a message with empty sender is
persisted as "Guest" and broadcast to the room. -/
theorem c8_witness :
    step demoA (.sendMessage "a" "" "u" "hi" 5 true) = (demoA, [])
    ∧ ((step demoA (.sendMessage "a" "r" "" "hi" 5 true)).1).messages
        = [⟨"r", "Guest", "hi", 5⟩]
    ∧ (step demoA (.sendMessage "a" "r" "" "hi" 5 true)).2
        = [⟨.inclusive "r", ["a"], .messageNew ⟨"r", "Guest", "hi", 5⟩⟩] := by
  refine ⟨(c8_send_message demoA "a" "" "u" "hi" 5 true).1 (Or.inl rfl), ?_, ?_⟩
  · rw [(c8_send_message demoA "a" "r" "" "hi" 5 true).2 (by decide) (by decide) rfl]
    decide
  · rw [(c8_send_message demoA "a" "r" "" "hi" 5 true).2 (by decide) (by decide) rfl]
    decide

/-! ### Claim C9 -/

theorem taskRun_lookup_self (rB : String) (board : TaskBoard) (hr : ¬ rB = "") :
    ∀ (rs : List String) (st : ServerState), rs ≠ [] →
      alookup ((runHandlers (tasksUpdateBody rB (some board)) rs st).1).taskBoards rB
        = some board := by
  intro rs
  induction rs with
  | nil => intro st h; exact absurd rfl h
  | cons c rest ih =>
    intro st _
    have hbody : (tasksUpdateBody rB (some board) c st).1
        = { st with taskBoards := aset st.taskBoards rB board } := by
      unfold tasksUpdateBody
      simp [hr]
    show alookup ((runHandlers _ rest ((tasksUpdateBody rB (some board) c st).1)).1).taskBoards rB
        = some board
    rw [hbody]
    by_cases hrest : rest = []
    · subst hrest
      exact alookup_aset_self _ _ _
    · exact ih _ hrest

theorem taskRun_lookup_other (rB : String) (board : TaskBoard) (q : String) (hq : q ≠ rB) :
    ∀ (rs : List String) (st : ServerState),
      alookup ((runHandlers (tasksUpdateBody rB (some board)) rs st).1).taskBoards q
        = alookup st.taskBoards q :=
  runHandlers_proj (fun s => alookup s.taskBoards q) (fun cr s => by
    show alookup ((tasksUpdateBody rB (some board) cr s).1).taskBoards q
        = alookup s.taskBoards q
    unfold tasksUpdateBody
    by_cases hrb : rB = ""
    · simp [hrb]
    · simp [hrb, alookup_aset_ne _ _ _ _ hq])

theorem taskRun_ems (rB : String) (board : TaskBoard) (hr : ¬ rB = "") :
    ∀ (rs : List String) (st : ServerState),
      (runHandlers (tasksUpdateBody rB (some board)) rs st).2
        = List.replicate rs.length (emitInclusive st rB (.tasksUpdateOut board)) := by
  intro rs
  induction rs with
  | nil => intro st; rfl
  | cons c rest ih =>
    intro st
    have hbody : tasksUpdateBody rB (some board) c st
        = ({ st with taskBoards := aset st.taskBoards rB board },
           [emitInclusive st rB (.tasksUpdateOut board)]) := by
      unfold tasksUpdateBody
      simp [hr]
    simp only [runHandlers, hbody, ih]
    simp [List.replicate_succ, emitInclusive, ioRoomMembers]

theorem taskRun_rooms (rB : String) (board : TaskBoard) :
    ∀ (rs : List String) (st : ServerState),
      ((runHandlers (tasksUpdateBody rB (some board)) rs st).1).rooms = st.rooms :=
  runHandlers_proj (fun s => s.rooms)
    (fun cr s => (tasksUpdateBody_state rB (some board) cr s).2.2.1)

/-- C9: a `tasks:update` from a joined connection replaces the task board
stored under the payload's room key and broadcasts it to that room's
members; nothing checks that the sender belongs to that room, so the board
of an arbitrary room key — including one with no members — can be created
or overwritten. -/
theorem c9_tasks_update (st : ServerState) (hst : Reachable st) (sid rB : String)
    (board : TaskBoard) (hc : sid ∈ st.connected) (hr : ¬ rB = "")
    (hjoined : sessionsOf st sid ≠ []) :
    alookup ((step st (.tasksUpdate sid rB (some board))).1).taskBoards rB = some board
    ∧ ((step st (.tasksUpdate sid rB (some board))).1).rooms = st.rooms
    ∧ (step st (.tasksUpdate sid rB (some board))).2
        = List.replicate (sessionsOf st sid).length
            (emitInclusive st rB (.tasksUpdateOut board))
    ∧ (∀ z, z ∈ (emitInclusive st rB (.tasksUpdateOut board)).recipients
          ↔ z ∈ memberIds st rB)
    ∧ (∀ q, q ≠ rB →
        alookup ((step st (.tasksUpdate sid rB (some board))).1).taskBoards q
          = alookup st.taskBoards q) := by
  have hInv := reachable_inv hst
  refine ⟨?_, ?_, ?_, ?_, ?_⟩
  · simp only [step, if_pos hc]
    exact taskRun_lookup_self rB board hr _ _ hjoined
  · simp only [step, if_pos hc]
    exact taskRun_rooms rB board _ _
  · simp only [step, if_pos hc]
    exact taskRun_ems rB board hr _ _
  · intro z
    have h1 : z ∈ (emitInclusive st rB (.tasksUpdateOut board)).recipients
        ↔ (z, rB) ∈ st.handlers := mem_ioRoomMembers
    rw [h1]
    exact hInv.2.2.1 z rB
  · intro q hq
    simp only [step, if_pos hc]
    exact taskRun_lookup_other rB board q hq _ _

/-- C9 witness: socket `a`, joined only to room `r`, overwrites the task
board of the unoccupied room `b`: the board is stored under `b` while `b`
has no membership list, and the broadcast to `b` reaches nobody. -/
theorem c9_witness :
    alookup demoA.rooms "b" = none
    ∧ alookup ((step demoA (.tasksUpdate "a" "b" (some ⟨["x"], [], []⟩))).1).taskBoards "b"
        = some ⟨["x"], [], []⟩
    ∧ (step demoA (.tasksUpdate "a" "b" (some ⟨["x"], [], []⟩))).2
        = [⟨.inclusive "b", [], .tasksUpdateOut ⟨["x"], [], []⟩⟩] := by
  refine ⟨by decide, ?_, ?_⟩
  · exact (c9_tasks_update demoA ⟨[], [.connect "a", .joinRoom "a" "r" "u" true], rfl⟩
      "a" "b" ⟨["x"], [], []⟩ (by decide) (by decide) (by decide)).1
  · rw [(c9_tasks_update demoA ⟨[], [.connect "a", .joinRoom "a" "r" "u" true], rfl⟩
      "a" "b" ⟨["x"], [], []⟩ (by decide) (by decide) (by decide)).2.2.1]
    decide

/-! ### Claim C10 -/

/-- C10: a connection that emits a valid `join-room` for the same room key
twice without disconnecting ends up with two membership entries and two
registered handler sets for that room, so one subsequent `whiteboard:draw`
from it appends the stroke to that room's log twice. -/
theorem c10_double_join (st : ServerState) (hst : Reachable st) (sid r u : String)
    (k : Stroke) (ok1 ok2 : Bool) (hc : sid ∈ st.connected) (hv : ¬(r = "" ∨ u = ""))
    (hnew : (sid, r) ∉ st.handlers) :
    membersOf (execState st [.joinRoom sid r u ok1, .joinRoom sid r u ok2]) r
      = membersOf st r ++ [⟨sid, u⟩, ⟨sid, u⟩]
    ∧ (execState st [.joinRoom sid r u ok1, .joinRoom sid r u ok2]).handlers
      = st.handlers ++ [(sid, r), (sid, r)]
    ∧ sid ∉ memberIds st r
    ∧ alookup ((step (execState st [.joinRoom sid r u ok1, .joinRoom sid r u ok2])
          (.whiteboardDraw sid k)).1).whiteboardData r
      = some ((alookup
          (execState st [.joinRoom sid r u ok1, .joinRoom sid r u ok2]).whiteboardData r).getD []
          ++ [k, k]) := by
  have hInv := reachable_inv hst
  have hmem : sid ∉ memberIds st r := fun hm => hnew ((hInv.2.2.1 sid r).mpr hm)
  have hexec0 : execState st [Event.joinRoom sid r u ok1, Event.joinRoom sid r u ok2]
      = (step ((step st (.joinRoom sid r u ok1)).1) (.joinRoom sid r u ok2)).1 := rfl
  have hA1 : ((step st (.joinRoom sid r u ok1)).1).handlers
      = st.handlers ++ [(sid, r)] := by
    simp [step, hc, hv]
  have hB1 : ((step st (.joinRoom sid r u ok1)).1).connected = st.connected := by
    simp [step, hc, hv]
  have hC1 : alookup ((step st (.joinRoom sid r u ok1)).1).rooms r
      = some (membersOf st r ++ [⟨sid, u⟩]) := by
    simp [step, hc, hv, alookup_aset_self, membersOf]
  simp only [hexec0]
  generalize hG : (step st (Event.joinRoom sid r u ok1)).1 = st1 at hA1 hB1 hC1 ⊢
  have hc2 : sid ∈ st1.connected := by
    rw [hB1]; exact hc
  have hA2 : ((step st1 (.joinRoom sid r u ok2)).1).handlers
      = st.handlers ++ [(sid, r), (sid, r)] := by
    simp [step, hc2, hv, hA1]
  have hC2 : alookup ((step st1 (.joinRoom sid r u ok2)).1).rooms r
      = some (membersOf st r ++ [⟨sid, u⟩, ⟨sid, u⟩]) := by
    simp [step, hc2, hv, alookup_aset_self, hC1, membersOf]
  have hB2 : sid ∈ ((step st1 (.joinRoom sid r u ok2)).1).connected := by
    simp [step, hc2, hv]
  have hsess : sessionsOf ((step st1 (.joinRoom sid r u ok2)).1) sid
      = sessionsOf st sid ++ [r, r] := by
    unfold sessionsOf
    rw [hA2]
    simp
  have hcount : (sessionsOf ((step st1 (.joinRoom sid r u ok2)).1) sid).count r = 2 := by
    rw [hsess, List.count_append]
    have h0 : (sessionsOf st sid).count r = 0 :=
      List.count_eq_zero.mpr (fun hm => hnew (mem_sessionsOf.mp hm))
    rw [h0]
    simp [List.count_cons]
  generalize hG2 : (step st1 (Event.joinRoom sid r u ok2)).1 = st2 at hA2 hC2 hB2 hsess hcount ⊢
  refine ⟨?_, hA2, hmem, ?_⟩
  · unfold membersOf
    rw [hC2]
    simp [membersOf]
  · simp only [step, if_pos hB2]
    rw [run_wbappend_lookup (fun r2 s => rfl), hcount]
    simp [List.replicate]

/-- C10 witness: from the fresh one-socket state, two joins to `r` and one
draw produce two membership entries, two handler sets, and a double-appended
stroke log. -/
theorem c10_witness :
    membersOf (execState demoC [.joinRoom "s" "r" "u" true, .joinRoom "s" "r" "u" true]) "r"
      = [⟨"s", "u"⟩, ⟨"s", "u"⟩]
    ∧ (execState demoC [.joinRoom "s" "r" "u" true, .joinRoom "s" "r" "u" true]).handlers
      = [("s", "r"), ("s", "r")]
    ∧ alookup ((step (execState demoC [.joinRoom "s" "r" "u" true, .joinRoom "s" "r" "u" true])
          (.whiteboardDraw "s" "k")).1).whiteboardData "r" = some ["k", "k"] := by
  have h := c10_double_join demoC ⟨[], [.connect "s"], rfl⟩ "s" "r" "u" "k" true true
    (by decide) (by decide) (by decide)
  refine ⟨?_, ?_, ?_⟩
  · rw [h.1]
    decide
  · rw [h.2.1]
    decide
  · rw [h.2.2.2]
    decide

/-! ### Claims C1 and C3 -/

theorem step_handlers_mono (st : ServerState) (e : Event)
    (hne : ∀ sid, e ≠ .disconnect sid) :
    ∃ ext, ((step st e).1).handlers = st.handlers ++ ext := by
  cases e with
  | connect s =>
    refine ⟨[], ?_⟩
    by_cases hc : s ∈ st.connected <;> simp [step, hc]
  | joinRoom s r0 u0 ok =>
    by_cases hc : s ∈ st.connected
    · by_cases hv : r0 = "" ∨ u0 = ""
      · exact ⟨[], by simp [step, hc, hv]⟩
      · exact ⟨[(s, r0)], by simp [step, hc, hv]⟩
    · exact ⟨[], by simp [step, hc]⟩
  | whiteboardDraw s k =>
    refine ⟨[], ?_⟩
    by_cases hc : s ∈ st.connected
    · simp only [step, if_pos hc]
      rw [runHandlers_proj (fun x => x.handlers) (fun r2 s2 => rfl)]
      simp
    · simp [step, hc]
  | whiteboardUndo s ss =>
    refine ⟨[], ?_⟩
    by_cases hc : s ∈ st.connected
    · simp only [step, if_pos hc]
      rw [runHandlers_proj (fun x => x.handlers) (fun r2 s2 => rfl)]
      simp
    · simp [step, hc]
  | whiteboardRedo s ss =>
    refine ⟨[], ?_⟩
    by_cases hc : s ∈ st.connected
    · simp only [step, if_pos hc]
      rw [runHandlers_proj (fun x => x.handlers) (fun r2 s2 => rfl)]
      simp
    · simp [step, hc]
  | whiteboardClear s =>
    refine ⟨[], ?_⟩
    by_cases hc : s ∈ st.connected
    · simp only [step, if_pos hc]
      rw [runHandlers_proj (fun x => x.handlers) (fun r2 s2 => rfl)]
      simp
    · simp [step, hc]
  | sendMessage s r0 sender text now ok =>
    refine ⟨[], ?_⟩
    by_cases hc : s ∈ st.connected
    · simp only [step, if_pos hc]
      rw [runHandlers_proj (fun x => x.handlers)
        (fun cr s2 => (sendMessageBody_state r0 sender text now ok cr s2).2.1)]
      simp
    · simp [step, hc]
  | tasksGet s r0 =>
    refine ⟨[], ?_⟩
    by_cases hc : s ∈ st.connected
    · simp only [step, if_pos hc]
      rw [runHandlers_const_state (fun cr s2 => tasksGetBody_state s r0 cr s2)]
      simp
    · simp [step, hc]
  | tasksUpdate s r0 tasks =>
    refine ⟨[], ?_⟩
    by_cases hc : s ∈ st.connected
    · simp only [step, if_pos hc]
      rw [runHandlers_proj (fun x => x.handlers)
        (fun cr s2 => (tasksUpdateBody_state r0 tasks cr s2).2.1)]
      simp
    · simp [step, hc]
  | offer s t sdp =>
    refine ⟨[], ?_⟩
    by_cases hc : s ∈ st.connected
    · simp only [step, if_pos hc]
      rw [runHandlers_const_state (fun cr s2 => offerBody_state s t sdp cr s2)]
      simp
    · simp [step, hc]
  | answer s t sdp =>
    refine ⟨[], ?_⟩
    by_cases hc : s ∈ st.connected
    · simp only [step, if_pos hc]
      rw [runHandlers_const_state (fun cr s2 => answerBody_state s t sdp cr s2)]
      simp
    · simp [step, hc]
  | iceCandidate s t cand =>
    refine ⟨[], ?_⟩
    by_cases hc : s ∈ st.connected
    · simp only [step, if_pos hc]
      rw [runHandlers_const_state (fun cr s2 => iceBody_state s t cand cr s2)]
      simp
    · simp [step, hc]
  | disconnect s => exact absurd rfl (hne s)

theorem roomJoined_mono (st : ServerState) (e : Event) (r : String)
    (hne : ∀ sid, e ≠ .disconnect sid) (h : roomJoined st r = true) :
    roomJoined ((step st e).1) r = true := by
  obtain ⟨ext, hext⟩ := step_handlers_mono st e hne
  obtain ⟨x, hx⟩ := roomJoined_iff.mp h
  exact roomJoined_of_handler
    (by rw [hext]; exact List.mem_append_left _ hx)

/-- C1 counterexample: in the reachable state where socket `s1` (the only
member of room `a`) has written the task board of room `b`, a task-board
snapshot exists for `b` although no connection is joined to `b` and `b` has
no membership list; a later joiner of `b` is pushed that residue board, not
the default skeleton. -/
theorem c1_counterexample :
    Reachable c1Bad
    ∧ (alookup c1Bad.taskBoards "b").isSome = true
    ∧ roomJoined c1Bad "b" = false
    ∧ alookup c1Bad.rooms "b" = none
    ∧ (⟨.unicast "s2", ["s2"], .tasksUpdateOut ⟨["x"], [], []⟩⟩ : Emit)
        ∈ (step (execState c1Bad [.connect "s2"]) (.joinRoom "s2" "b" "v" true)).2 := by
  exact ⟨⟨[], c1BadTrace, rfl⟩, by decide, by decide, by decide, by decide⟩

/-- C1 amended: in every reachable state, a membership list exists for a
room exactly when some connection is joined to it, a whiteboard log exists
only for joined rooms, and at the step where a room's membership becomes
empty its membership list, whiteboard log and task board are all deleted;
however (see the counterexample) a task-board snapshot can exist for a room
key nobody is joined to, created by `tasks:update` keyed on the payload's
room, and a later joiner of that key observes the residue. -/
theorem c1_room_state_lifecycle (st : ServerState) (hst : Reachable st) (r : String) :
    ((alookup st.rooms r).isSome = true ↔ roomJoined st r = true)
    ∧ ((alookup st.whiteboardData r).isSome = true → roomJoined st r = true)
    ∧ (∀ e, roomJoined st r = true → roomJoined ((step st e).1) r = false →
        alookup ((step st e).1).rooms r = none
        ∧ alookup ((step st e).1).whiteboardData r = none
        ∧ alookup ((step st e).1).taskBoards r = none) := by
  obtain ⟨h0, h1, h2, h3, h4⟩ := reachable_inv hst
  refine ⟨?_, h4 r, ?_⟩
  · constructor
    · intro hs
      cases hl : alookup st.rooms r with
      | none =>
        rw [hl] at hs
        simp at hs
      | some l =>
        obtain ⟨m, hm⟩ := List.exists_mem_of_ne_nil l (h3 r l hl)
        have hmm : m.socketId ∈ memberIds st r := by
          unfold memberIds
          rw [hl]
          simp only [Option.getD_some, List.mem_map]
          exact ⟨m, hm, rfl⟩
        exact roomJoined_of_handler ((h2 _ r).mpr hmm)
    · intro hj
      obtain ⟨x, hx⟩ := roomJoined_iff.mp hj
      have hxm := (h2 x r).mp hx
      unfold memberIds at hxm
      cases hl : alookup st.rooms r with
      | none =>
        rw [hl] at hxm
        simp at hxm
      | some l => simp [hl]
  · intro e hpre hpost
    by_cases hd : ∃ sid, e = Event.disconnect sid
    · obtain ⟨sid, rfl⟩ := hd
      by_cases hc : sid ∈ st.connected
      · simp only [step, if_pos hc] at hpost ⊢
        have hall : ∀ x, (x, r) ∈ st.handlers → x = sid := by
          intro x hx
          by_contra hne
          have hmem2 : (x, r) ∈ st.handlers.filter (fun h => h.1 ≠ sid) :=
            mem_filter_fst_ne.mpr ⟨hx, hne⟩
          have hjj : roomJoined (runHandlers (discBody sid) (sessionsOf st sid)
              { st with connected := st.connected.erase sid,
                        handlers := st.handlers.filter (fun h => h.1 ≠ sid) }).1 r = true := by
            exact roomJoined_of_handler
              (by rw [discRun_handlers]; exact hmem2)
          rw [hjj] at hpost
          cases hpost
        obtain ⟨x0, hx0⟩ := roomJoined_iff.mp hpre
        have hsid : (sid, r) ∈ st.handlers := by
          have := hall x0 hx0
          rw [this] at hx0
          exact hx0
        have hsess : r ∈ sessionsOf st sid := mem_sessionsOf.mpr hsid
        have hsm : sid ∈ memberIds st r := (h2 sid r).mp hsid
        cases hl : alookup st.rooms r with
        | none =>
          exfalso
          unfold memberIds at hsm
          rw [hl] at hsm
          simp at hsm
        | some l =>
          have hdrop : dropSid sid l = [] := by
            rw [dropSid_eq_nil_iff]
            intro m hm
            apply hall
            apply (h2 _ r).mpr
            unfold memberIds
            rw [hl]
            simp only [Option.getD_some, List.mem_map]
            exact ⟨m, hm, rfl⟩
          refine ⟨?_, ?_, ?_⟩
          · rw [discRun_rooms_lookup, if_pos hsess]
            show postMembers sid (alookup st.rooms r) = none
            rw [hl]
            simp [postMembers, hdrop]
          · rw [discRun_wb_lookup]
            show (if r ∈ sessionsOf st sid ∧ emptiedBy sid (alookup st.rooms r) then none
              else alookup st.whiteboardData r) = none
            rw [if_pos ⟨hsess, by rw [hl]; exact hdrop⟩]
          · rw [discRun_tb_lookup]
            show (if r ∈ sessionsOf st sid ∧ emptiedBy sid (alookup st.rooms r) then none
              else alookup st.taskBoards r) = none
            rw [if_pos ⟨hsess, by rw [hl]; exact hdrop⟩]
      · simp only [step, if_neg hc] at hpost
        rw [hpre] at hpost
        cases hpost
    · push_neg at hd
      rw [roomJoined_mono st e r hd hpre] at hpost
      cases hpost

/-- C1 witness: the lifecycle facts instantiated in the one-member room
state, with the disconnect of the last member deleting all three pieces. -/
theorem c1_witness :
    Reachable demoA
    ∧ ((alookup demoA.rooms "r").isSome = true ↔ roomJoined demoA "r" = true)
    ∧ (alookup ((step demoA (.disconnect "a")).1).rooms "r" = none
        ∧ alookup ((step demoA (.disconnect "a")).1).whiteboardData "r" = none
        ∧ alookup ((step demoA (.disconnect "a")).1).taskBoards "r" = none) := by
  have hre : Reachable demoA := ⟨[], [.connect "a", .joinRoom "a" "r" "u" true], rfl⟩
  refine ⟨hre, (c1_room_state_lifecycle demoA hre "r").1, ?_⟩
  exact (c1_room_state_lifecycle demoA hre "r").2.2 (.disconnect "a") (by decide) (by decide)

/-- C3 counterexample: with membership list `[s, s, s2]` for room `r` (the
same connection joined twice), the disconnect of `s` removes BOTH of its
entries, leaving `[s2]` — not `[s, s2]` as a first-entry-only removal would. -/
theorem c3_counterexample :
    memberIds c3State "r" = ["s", "s", "s2"]
    ∧ memberIds ((step c3State (.disconnect "s")).1) "r" = ["s2"]
    ∧ memberIds ((step c3State (.disconnect "s")).1) "r" ≠ ["s", "s2"] := by
  exact ⟨by decide, by decide, by decide⟩

/-- C3 amended: the disconnect of a connection that is in a room's
membership list replaces that list by the list with EVERY entry of that
connection filtered out, deleting the binding — and reclaiming the room's
whiteboard log and task board — exactly when the filtered list is empty,
and touching neither otherwise. -/
theorem c3_leave_removes_all (st : ServerState) (hst : Reachable st) (sid r : String)
    (lst : List Member) (hc : sid ∈ st.connected) (hl : alookup st.rooms r = some lst)
    (hm : sid ∈ memberIds st r) :
    alookup ((step st (.disconnect sid)).1).rooms r
        = (if dropSid sid lst = [] then none else some (dropSid sid lst))
    ∧ (dropSid sid lst = [] →
        alookup ((step st (.disconnect sid)).1).whiteboardData r = none
        ∧ alookup ((step st (.disconnect sid)).1).taskBoards r = none)
    ∧ (dropSid sid lst ≠ [] →
        alookup ((step st (.disconnect sid)).1).whiteboardData r
            = alookup st.whiteboardData r
        ∧ alookup ((step st (.disconnect sid)).1).taskBoards r
            = alookup st.taskBoards r) := by
  obtain ⟨h0, h1, h2, h3, h4⟩ := reachable_inv hst
  have hsid : (sid, r) ∈ st.handlers := (h2 sid r).mpr hm
  have hsess : r ∈ sessionsOf st sid := mem_sessionsOf.mpr hsid
  simp only [step, if_pos hc]
  refine ⟨?_, ?_, ?_⟩
  · rw [discRun_rooms_lookup, if_pos hsess]
    show postMembers sid (alookup st.rooms r) = _
    rw [hl]
    rfl
  · intro hdrop
    constructor
    · rw [discRun_wb_lookup]
      show (if r ∈ sessionsOf st sid ∧ emptiedBy sid (alookup st.rooms r) then none
        else alookup st.whiteboardData r) = none
      rw [if_pos ⟨hsess, by rw [hl]; exact hdrop⟩]
    · rw [discRun_tb_lookup]
      show (if r ∈ sessionsOf st sid ∧ emptiedBy sid (alookup st.rooms r) then none
        else alookup st.taskBoards r) = none
      rw [if_pos ⟨hsess, by rw [hl]; exact hdrop⟩]
  · intro hdrop
    have hno : ¬(r ∈ sessionsOf st sid ∧ emptiedBy sid (alookup st.rooms r)) := by
      rintro ⟨-, hemp⟩
      rw [hl] at hemp
      exact hdrop hemp
    constructor
    · rw [discRun_wb_lookup]
      show (if r ∈ sessionsOf st sid ∧ emptiedBy sid (alookup st.rooms r) then none
        else alookup st.whiteboardData r) = alookup st.whiteboardData r
      rw [if_neg hno]
    · rw [discRun_tb_lookup]
      show (if r ∈ sessionsOf st sid ∧ emptiedBy sid (alookup st.rooms r) then none
        else alookup st.taskBoards r) = alookup st.taskBoards r
      rw [if_neg hno]

/-- C3 witness: in the two-member room `[s, s, s2]` state, the disconnect of
`s2` (exactly one entry) leaves `[s, s]` and reclaims nothing, while from
the one-member state the disconnect of `a` empties the room and reclaims
whiteboard and task board. -/
theorem c3_witness :
    alookup ((step c3State (.disconnect "s2")).1).rooms "r"
        = some [⟨"s", "u"⟩, ⟨"s", "u"⟩]
    ∧ alookup ((step demoA (.disconnect "a")).1).rooms "r" = none
    ∧ alookup ((step demoA (.disconnect "a")).1).whiteboardData "r" = none := by
  have h1 := c3_leave_removes_all c3State ⟨[], c3Trace, rfl⟩ "s2" "r"
    [⟨"s", "u"⟩, ⟨"s", "u"⟩, ⟨"s2", "v"⟩] (by decide) (by decide) (by decide)
  have h2 := c3_leave_removes_all demoA
    ⟨[], [.connect "a", .joinRoom "a" "r" "u" true], rfl⟩ "a" "r"
    [⟨"a", "u"⟩] (by decide) (by decide) (by decide)
  refine ⟨?_, ?_, ?_⟩
  · rw [h1.1]
    decide
  · rw [h2.1]
    decide
  · exact (h2.2.1 (by decide)).1

/-! ### Claim C2 -/

theorem dropSid_eq_self_of_not_mem {sid : String} {l : List Member}
    (h : sid ∉ l.map (fun m => m.socketId)) : dropSid sid l = l := by
  rw [dropSid, List.filter_eq_self]
  intro m hm
  simp only [decide_eq_true_eq]
  intro he
  exact h (List.mem_map.mpr ⟨m, hm, he⟩)

theorem dropSid_length_of_nodup {sid : String} {l : List Member}
    (hnd : (l.map (fun m => m.socketId)).Nodup)
    (hmem : sid ∈ l.map (fun m => m.socketId)) :
    (dropSid sid l).length + 1 = l.length := by
  induction l with
  | nil => simp at hmem
  | cons m tl ih =>
    simp only [List.map_cons, List.nodup_cons] at hnd
    by_cases h : m.socketId = sid
    · have hnotin : sid ∉ tl.map (fun m => m.socketId) := by
        rw [← h]
        exact hnd.1
      have hdrop : dropSid sid (m :: tl) = dropSid sid tl := by
        simp [dropSid, List.filter_cons, h]
      rw [hdrop, dropSid_eq_self_of_not_mem hnotin]
      simp
    · have hmem2 : sid ∈ tl.map (fun m => m.socketId) := by
        simp only [List.map_cons, List.mem_cons] at hmem
        rcases hmem with h1 | h1
        · exact absurd h1.symm h
        · exact h1
      have hdrop : dropSid sid (m :: tl) = m :: dropSid sid tl := by
        simp [dropSid, List.filter_cons, h]
      rw [hdrop]
      simp only [List.length_cons]
      rw [ih hnd.2 hmem2]

theorem dropSid_map_nodup {sid : String} {l : List Member}
    (hnd : (l.map (fun m => m.socketId)).Nodup) :
    ((dropSid sid l).map (fun m => m.socketId)).Nodup :=
  hnd.sublist ((List.filter_sublist l).map _)

theorem step_count_law (st : ServerState) (e : Event) (r : String) (hInv : Inv st)
    (hnd : (memberIds st r).Nodup) (hclean : cleanJoinAt r st e = true) :
    ((memberIds (step st e).1 r).length + (if isLeaveFrom r st e then 1 else 0)
      = (memberIds st r).length + (if isJoinTo r st e then 1 else 0))
    ∧ (memberIds (step st e).1 r).Nodup := by
  cases e with
  | connect s =>
    have hmm : memberIds ((step st (.connect s)).1) r = memberIds st r := by
      by_cases hc : s ∈ st.connected <;> simp [step, hc, memberIds]
    rw [hmm]
    exact ⟨by simp [isJoinTo, isLeaveFrom], hnd⟩
  | joinRoom s ro us ok =>
    by_cases hc : s ∈ st.connected
    · by_cases hv : ro = "" ∨ us = ""
      · have hstep : (step st (.joinRoom s ro us ok)).1 = st := by
          simp [step, hc, hv]
        have hj : isJoinTo r st (.joinRoom s ro us ok) = false := by
          rcases hv with h | h <;> simp [isJoinTo, h]
        rw [hstep, hj]
        exact ⟨by simp [isLeaveFrom], hnd⟩
      · rw [not_or] at hv
        by_cases hro : ro = r
        · subst hro
          have hmm : memberIds ((step st (.joinRoom s ro us ok)).1) ro
              = memberIds st ro ++ [s] := by
            simp [step, hc, hv.1, hv.2, memberIds, alookup_aset_self]
          have hj : isJoinTo ro st (.joinRoom s ro us ok) = true := by
            simp [isJoinTo, hc, hv.1, hv.2]
          have hsm : s ∉ memberIds st ro := by
            simp [cleanJoinAt, hc, hv.1, hv.2] at hclean
            exact hclean
          rw [hmm, hj]
          constructor
          · simp [isLeaveFrom]
          · rw [List.nodup_append]
            exact ⟨hnd, List.nodup_singleton s, by
              intro x hx hxs
              rw [List.mem_singleton] at hxs
              rw [hxs] at hx
              exact hsm hx⟩
        · have hmm : memberIds ((step st (.joinRoom s ro us ok)).1) r
              = memberIds st r := by
            have hne : r ≠ ro := fun h => hro h.symm
            simp [step, hc, hv.1, hv.2, memberIds, alookup_aset_ne _ _ _ _ hne]
          have hj : isJoinTo r st (.joinRoom s ro us ok) = false := by
            simp [isJoinTo, hro]
          rw [hmm, hj]
          exact ⟨by simp [isLeaveFrom], hnd⟩
    · have hstep : (step st (.joinRoom s ro us ok)).1 = st := by
        simp [step, hc]
      have hj : isJoinTo r st (.joinRoom s ro us ok) = false := by
        simp [isJoinTo, hc]
      rw [hstep, hj]
      exact ⟨by simp [isLeaveFrom], hnd⟩
  | whiteboardDraw s k =>
    have hr2 : ((step st (.whiteboardDraw s k)).1).rooms = st.rooms := by
      by_cases hc : s ∈ st.connected
      · simp only [step, if_pos hc]
        exact runHandlers_proj (fun x => x.rooms) (fun r2 s2 => rfl) _ _
      · simp [step, hc]
    have hmm : memberIds ((step st (.whiteboardDraw s k)).1) r = memberIds st r := by
      unfold memberIds
      rw [hr2]
    rw [hmm]
    exact ⟨by simp [isJoinTo, isLeaveFrom], hnd⟩
  | whiteboardUndo s ss =>
    have hr2 : ((step st (.whiteboardUndo s ss)).1).rooms = st.rooms := by
      by_cases hc : s ∈ st.connected
      · simp only [step, if_pos hc]
        exact runHandlers_proj (fun x => x.rooms) (fun r2 s2 => rfl) _ _
      · simp [step, hc]
    have hmm : memberIds ((step st (.whiteboardUndo s ss)).1) r = memberIds st r := by
      unfold memberIds
      rw [hr2]
    rw [hmm]
    exact ⟨by simp [isJoinTo, isLeaveFrom], hnd⟩
  | whiteboardRedo s ss =>
    have hr2 : ((step st (.whiteboardRedo s ss)).1).rooms = st.rooms := by
      by_cases hc : s ∈ st.connected
      · simp only [step, if_pos hc]
        exact runHandlers_proj (fun x => x.rooms) (fun r2 s2 => rfl) _ _
      · simp [step, hc]
    have hmm : memberIds ((step st (.whiteboardRedo s ss)).1) r = memberIds st r := by
      unfold memberIds
      rw [hr2]
    rw [hmm]
    exact ⟨by simp [isJoinTo, isLeaveFrom], hnd⟩
  | whiteboardClear s =>
    have hr2 : ((step st (.whiteboardClear s)).1).rooms = st.rooms := by
      by_cases hc : s ∈ st.connected
      · simp only [step, if_pos hc]
        exact runHandlers_proj (fun x => x.rooms) (fun r2 s2 => rfl) _ _
      · simp [step, hc]
    have hmm : memberIds ((step st (.whiteboardClear s)).1) r = memberIds st r := by
      unfold memberIds
      rw [hr2]
    rw [hmm]
    exact ⟨by simp [isJoinTo, isLeaveFrom], hnd⟩
  | sendMessage s r0 sender text now ok =>
    have hr2 : ((step st (.sendMessage s r0 sender text now ok)).1).rooms = st.rooms := by
      by_cases hc : s ∈ st.connected
      · simp only [step, if_pos hc]
        exact runHandlers_proj (fun x => x.rooms)
          (fun cr s2 => (sendMessageBody_state r0 sender text now ok cr s2).2.2.1) _ _
      · simp [step, hc]
    have hmm : memberIds ((step st (.sendMessage s r0 sender text now ok)).1) r
        = memberIds st r := by
      unfold memberIds
      rw [hr2]
    rw [hmm]
    exact ⟨by simp [isJoinTo, isLeaveFrom], hnd⟩
  | tasksGet s r0 =>
    have hr2 : ((step st (.tasksGet s r0)).1).rooms = st.rooms := by
      by_cases hc : s ∈ st.connected
      · simp only [step, if_pos hc]
        rw [runHandlers_const_state (fun cr s2 => tasksGetBody_state s r0 cr s2)]
      · simp [step, hc]
    have hmm : memberIds ((step st (.tasksGet s r0)).1) r = memberIds st r := by
      unfold memberIds
      rw [hr2]
    rw [hmm]
    exact ⟨by simp [isJoinTo, isLeaveFrom], hnd⟩
  | tasksUpdate s r0 tasks =>
    have hr2 : ((step st (.tasksUpdate s r0 tasks)).1).rooms = st.rooms := by
      by_cases hc : s ∈ st.connected
      · simp only [step, if_pos hc]
        exact runHandlers_proj (fun x => x.rooms)
          (fun cr s2 => (tasksUpdateBody_state r0 tasks cr s2).2.2.1) _ _
      · simp [step, hc]
    have hmm : memberIds ((step st (.tasksUpdate s r0 tasks)).1) r = memberIds st r := by
      unfold memberIds
      rw [hr2]
    rw [hmm]
    exact ⟨by simp [isJoinTo, isLeaveFrom], hnd⟩
  | offer s t sdp =>
    have hr2 : ((step st (.offer s t sdp)).1).rooms = st.rooms := by
      by_cases hc : s ∈ st.connected
      · simp only [step, if_pos hc]
        rw [runHandlers_const_state (fun cr s2 => offerBody_state s t sdp cr s2)]
      · simp [step, hc]
    have hmm : memberIds ((step st (.offer s t sdp)).1) r = memberIds st r := by
      unfold memberIds
      rw [hr2]
    rw [hmm]
    exact ⟨by simp [isJoinTo, isLeaveFrom], hnd⟩
  | answer s t sdp =>
    have hr2 : ((step st (.answer s t sdp)).1).rooms = st.rooms := by
      by_cases hc : s ∈ st.connected
      · simp only [step, if_pos hc]
        rw [runHandlers_const_state (fun cr s2 => answerBody_state s t sdp cr s2)]
      · simp [step, hc]
    have hmm : memberIds ((step st (.answer s t sdp)).1) r = memberIds st r := by
      unfold memberIds
      rw [hr2]
    rw [hmm]
    exact ⟨by simp [isJoinTo, isLeaveFrom], hnd⟩
  | iceCandidate s t cand =>
    have hr2 : ((step st (.iceCandidate s t cand)).1).rooms = st.rooms := by
      by_cases hc : s ∈ st.connected
      · simp only [step, if_pos hc]
        rw [runHandlers_const_state (fun cr s2 => iceBody_state s t cand cr s2)]
      · simp [step, hc]
    have hmm : memberIds ((step st (.iceCandidate s t cand)).1) r = memberIds st r := by
      unfold memberIds
      rw [hr2]
    rw [hmm]
    exact ⟨by simp [isJoinTo, isLeaveFrom], hnd⟩
  | disconnect s =>
    by_cases hc : s ∈ st.connected
    · by_cases hm : s ∈ memberIds st r
      · have hsid : (s, r) ∈ st.handlers := (hInv.2.2.1 s r).mpr hm
        have hsess : r ∈ sessionsOf st s := mem_sessionsOf.mpr hsid
        have hlv : isLeaveFrom r st (.disconnect s) = true := by
          simp [isLeaveFrom, hc, hm]
        have hj : isJoinTo r st (.disconnect s) = false := by
          simp [isJoinTo]
        cases hl : alookup st.rooms r with
        | none =>
          exfalso
          unfold memberIds at hm
          rw [hl] at hm
          simp at hm
        | some l =>
          have hndl : (l.map (fun m => m.socketId)).Nodup := by
            unfold memberIds at hnd
            rw [hl] at hnd
            simpa using hnd
          have hml : s ∈ l.map (fun m => m.socketId) := by
            unfold memberIds at hm
            rw [hl] at hm
            simpa using hm
          have hlen := dropSid_length_of_nodup hndl hml
          have hmm : memberIds ((step st (.disconnect s)).1) r
              = (dropSid s l).map (fun m => m.socketId) := by
            simp only [step, if_pos hc]
            unfold memberIds
            rw [discRun_rooms_lookup, if_pos hsess]
            show ((postMembers s (alookup st.rooms r)).getD []).map (fun m => m.socketId)
                = (dropSid s l).map (fun m => m.socketId)
            rw [hl]
            by_cases hdrop : dropSid s l = []
            · simp [postMembers, hdrop]
            · simp [postMembers, hdrop]
          have hlen2 : (memberIds st r).length = l.length := by
            unfold memberIds
            rw [hl]
            simp
          rw [hmm, hlv, hj]
          constructor
          · simp only [List.length_map, if_true]
            simp only [hlen2]
            simp
            omega
          · exact dropSid_map_nodup hndl
      · have hns : r ∉ sessionsOf st s :=
          fun h => hm ((hInv.2.2.1 s r).mp (mem_sessionsOf.mp h))
        have hmm : memberIds ((step st (.disconnect s)).1) r = memberIds st r := by
          simp only [step, if_pos hc]
          unfold memberIds
          rw [discRun_rooms_lookup, if_neg hns]
        have hlv : isLeaveFrom r st (.disconnect s) = false := by
          simp [isLeaveFrom, hm]
        rw [hmm, hlv]
        exact ⟨by simp [isJoinTo], hnd⟩
    · have hstep : (step st (.disconnect s)).1 = st := by
        simp [step, hc]
      have hlv : isLeaveFrom r st (.disconnect s) = false := by
        simp [isLeaveFrom, hc]
      rw [hstep, hlv]
      exact ⟨by simp [isJoinTo], hnd⟩

theorem c2_aux (r : String) : ∀ (es : List Event) (st : ServerState), Inv st →
    (memberIds st r).Nodup → cleanJoins r st es = true →
    (memberIds (execState st es) r).length + countLeaves r st es
      = (memberIds st r).length + countJoins r st es := by
  intro es
  induction es with
  | nil =>
    intro st _ _ _
    simp [execState, countJoins, countLeaves]
  | cons e es ih =>
    intro st hInv hnd hclean
    rw [show cleanJoins r st (e :: es)
        = (cleanJoinAt r st e && cleanJoins r (step st e).1 es) from rfl,
      Bool.and_eq_true] at hclean
    obtain ⟨hcl1, hcl2⟩ := hclean
    have hstep := step_count_law st e r hInv hnd hcl1
    have ihh := ih (step st e).1 (step_inv st e hInv) hstep.2 hcl2
    have e1 := hstep.1
    show (memberIds (execState (step st e).1 es) r).length
        + ((if isLeaveFrom r st e then 1 else 0) + countLeaves r (step st e).1 es)
      = (memberIds st r).length
        + ((if isJoinTo r st e then 1 else 0) + countJoins r (step st e).1 es)
    omega

theorem step_not_connected (st : ServerState) (e : Event) (sid : String)
    (h : sid ∉ st.connected) (hne : e ≠ .connect sid) :
    sid ∉ ((step st e).1).connected := by
  cases e with
  | connect x =>
    by_cases hc : x ∈ st.connected
    · simpa [step, hc] using h
    · simp only [step, if_neg hc]
      intro hmem
      rcases List.mem_cons.mp hmem with h1 | h1
      · rw [h1] at hne
        exact hne rfl
      · exact h h1
  | joinRoom x ro us ok =>
    have hcn : ((step st (.joinRoom x ro us ok)).1).connected = st.connected := by
      by_cases hc : x ∈ st.connected
      · by_cases hv : ro = "" ∨ us = "" <;> simp [step, hc, hv]
      · simp [step, hc]
    rw [hcn]
    exact h
  | whiteboardDraw x k =>
    have hcn : ((step st (.whiteboardDraw x k)).1).connected = st.connected := by
      by_cases hc : x ∈ st.connected
      · simp only [step, if_pos hc]
        exact runHandlers_proj (fun s => s.connected) (fun r2 s2 => rfl) _ _
      · simp [step, hc]
    rw [hcn]
    exact h
  | whiteboardUndo x ss =>
    have hcn : ((step st (.whiteboardUndo x ss)).1).connected = st.connected := by
      by_cases hc : x ∈ st.connected
      · simp only [step, if_pos hc]
        exact runHandlers_proj (fun s => s.connected) (fun r2 s2 => rfl) _ _
      · simp [step, hc]
    rw [hcn]
    exact h
  | whiteboardRedo x ss =>
    have hcn : ((step st (.whiteboardRedo x ss)).1).connected = st.connected := by
      by_cases hc : x ∈ st.connected
      · simp only [step, if_pos hc]
        exact runHandlers_proj (fun s => s.connected) (fun r2 s2 => rfl) _ _
      · simp [step, hc]
    rw [hcn]
    exact h
  | whiteboardClear x =>
    have hcn : ((step st (.whiteboardClear x)).1).connected = st.connected := by
      by_cases hc : x ∈ st.connected
      · simp only [step, if_pos hc]
        exact runHandlers_proj (fun s => s.connected) (fun r2 s2 => rfl) _ _
      · simp [step, hc]
    rw [hcn]
    exact h
  | sendMessage x r0 sender text now ok =>
    have hcn : ((step st (.sendMessage x r0 sender text now ok)).1).connected
        = st.connected := by
      by_cases hc : x ∈ st.connected
      · simp only [step, if_pos hc]
        exact runHandlers_proj (fun s => s.connected)
          (fun cr s2 => (sendMessageBody_state r0 sender text now ok cr s2).1) _ _
      · simp [step, hc]
    rw [hcn]
    exact h
  | tasksGet x r0 =>
    have hcn : ((step st (.tasksGet x r0)).1).connected = st.connected := by
      by_cases hc : x ∈ st.connected
      · simp only [step, if_pos hc]
        rw [runHandlers_const_state (fun cr s2 => tasksGetBody_state x r0 cr s2)]
      · simp [step, hc]
    rw [hcn]
    exact h
  | tasksUpdate x r0 tasks =>
    have hcn : ((step st (.tasksUpdate x r0 tasks)).1).connected = st.connected := by
      by_cases hc : x ∈ st.connected
      · simp only [step, if_pos hc]
        exact runHandlers_proj (fun s => s.connected)
          (fun cr s2 => (tasksUpdateBody_state r0 tasks cr s2).1) _ _
      · simp [step, hc]
    rw [hcn]
    exact h
  | offer x t sdp =>
    have hcn : ((step st (.offer x t sdp)).1).connected = st.connected := by
      by_cases hc : x ∈ st.connected
      · simp only [step, if_pos hc]
        rw [runHandlers_const_state (fun cr s2 => offerBody_state x t sdp cr s2)]
      · simp [step, hc]
    rw [hcn]
    exact h
  | answer x t sdp =>
    have hcn : ((step st (.answer x t sdp)).1).connected = st.connected := by
      by_cases hc : x ∈ st.connected
      · simp only [step, if_pos hc]
        rw [runHandlers_const_state (fun cr s2 => answerBody_state x t sdp cr s2)]
      · simp [step, hc]
    rw [hcn]
    exact h
  | iceCandidate x t cand =>
    have hcn : ((step st (.iceCandidate x t cand)).1).connected = st.connected := by
      by_cases hc : x ∈ st.connected
      · simp only [step, if_pos hc]
        rw [runHandlers_const_state (fun cr s2 => iceBody_state x t cand cr s2)]
      · simp [step, hc]
    rw [hcn]
    exact h
  | disconnect x =>
    by_cases hc : x ∈ st.connected
    · simp only [step, if_pos hc]
      rw [discRun_connected]
      intro hmem
      exact h (List.mem_of_mem_erase hmem)
    · simpa [step, hc] using h

theorem not_member_walk (sid r : String) : ∀ (es : List Event) (st : ServerState),
    Inv st → sid ∉ st.connected → Event.connect sid ∉ es →
    sid ∉ memberIds (execState st es) r := by
  intro es
  induction es with
  | nil =>
    intro st hInv hnc _ hmem
    exact hnc (hInv.2.1 _ ((hInv.2.2.1 sid r).mpr hmem))
  | cons e es ih =>
    intro st hInv hnc hn
    have hne : e ≠ .connect sid := fun h => hn (by rw [h]; exact List.mem_cons_self _ _)
    exact ih (step st e).1 (step_inv st e hInv)
      (step_not_connected st e sid hnc hne)
      (fun h => hn (List.mem_cons_of_mem _ h))

/-- C2 counterexample: a socket that joins room `r` twice and disconnects
once gives 2 counted joins and 1 counted leave, but both of its entries are
removed, so the final membership length 0 differs from joins − leaves = 1. -/
theorem c2_counterexample :
    countJoins "r" (initState []) c2BadTrace = 2
    ∧ countLeaves "r" (initState []) c2BadTrace = 1
    ∧ (memberIds (execState (initState []) c2BadTrace) "r").length = 0
    ∧ (memberIds (execState (initState []) c2BadTrace) "r").length ≠
        countJoins "r" (initState []) c2BadTrace
          - countLeaves "r" (initState []) c2BadTrace := by
  exact ⟨by decide, by decide, by decide, by decide⟩

/-- C2 amended: provided no connection joins a room it is already a member
of, a room's membership length always equals its joins minus its leaves;
and unconditionally the membership list contains no entry for a connection
after that connection's leave (its disconnect removes every one of its
entries), as long as that connection id does not reconnect. -/
theorem c2_membership_count :
    (∀ (store : List Msg) (es : List Event) (r : String),
        cleanJoins r (initState store) es = true →
        (memberIds (execState (initState store) es) r).length
          = countJoins r (initState store) es - countLeaves r (initState store) es)
    ∧ (∀ (store : List Msg) (es1 es2 : List Event) (sid r : String),
        Event.connect sid ∉ es2 →
        sid ∉ memberIds
          (execState (initState store) (es1 ++ Event.disconnect sid :: es2)) r) := by
  constructor
  · intro store es r hclean
    have h := c2_aux r es (initState store) (initState_inv store)
      (by simp [memberIds, initState, alookup]) hclean
    have h0 : (memberIds (initState store) r).length = 0 := by
      simp [memberIds, initState, alookup]
    omega
  · intro store es1 es2 sid r h2
    rw [exec_append]
    have hInv1 : Inv (execState (initState store) es1) :=
      exec_inv _ _ (initState_inv store)
    show sid ∉ memberIds
      (execState ((step (execState (initState store) es1) (.disconnect sid)).1) es2) r
    have hInvD : Inv ((step (execState (initState store) es1) (.disconnect sid)).1) :=
      step_inv _ _ hInv1
    have hnc : sid ∉ ((step (execState (initState store) es1) (.disconnect sid)).1).connected := by
      by_cases hc : sid ∈ (execState (initState store) es1).connected
      · simp only [step, if_pos hc]
        rw [discRun_connected]
        intro hmem
        exact ((hInv1.1.mem_erase_iff).mp hmem).1 rfl
      · simp [step, hc]
    exact not_member_walk sid r es2 _ hInvD hnc h2

/-- C2 witness: the count law on a clean join/leave run, and the
no-entry-after-leave fact on a concrete split run. -/
theorem c2_witness :
    cleanJoins "r" (initState []) [.connect "s", .joinRoom "s" "r" "u" true,
        .disconnect "s"] = true
    ∧ (memberIds (execState (initState [])
          [.connect "s", .joinRoom "s" "r" "u" true, .disconnect "s"]) "r").length
        = countJoins "r" (initState [])
            [.connect "s", .joinRoom "s" "r" "u" true, .disconnect "s"]
          - countLeaves "r" (initState [])
              [.connect "s", .joinRoom "s" "r" "u" true, .disconnect "s"]
    ∧ "s" ∉ memberIds (execState (initState [])
        ([.connect "s", .joinRoom "s" "r" "u" true] ++ Event.disconnect "s" :: [])) "r" := by
  refine ⟨by decide, ?_, ?_⟩
  · exact c2_membership_count.1 [] [.connect "s", .joinRoom "s" "r" "u" true,
      .disconnect "s"] "r" (by decide)
  · exact c2_membership_count.2 [] [.connect "s", .joinRoom "s" "r" "u" true] [] "s" "r"
      (by simp)

/-! ### Claim C4 -/

set_option maxRecDepth 4000 in
/-- C4: the join handler's history query (`sort({createdAt: 1}).limit(200)`,
embedded as `loadRecent`) returns the 200 OLDEST messages of the room in
ascending order, not the 200 most recent ascending (`mostRecentAscending`,
modelled from the spec's words): on a room with 201 messages timestamped
0..200 the code pushes createdAt 0..199 while the claim demands 1..200.
The degraded path is as claimed: on store failure the join still pushes
`messages:initial []` and completes the rest of the flow (task-board push
shown). -/
theorem c4_history_oldest_not_recent :
    (loadRecent store201 "chat").map (fun m => m.createdAt) = List.range 200
    ∧ (mostRecentAscending store201 "chat").map (fun m => m.createdAt)
        = (List.range 200).map (fun i => i + 1)
    ∧ loadRecent store201 "chat" ≠ mostRecentAscending store201 "chat"
    ∧ (⟨.unicast "s", ["s"], .messagesInitial (loadRecent store201 "chat")⟩ : Emit)
        ∈ (step c4State (.joinRoom "s" "chat" "u" true)).2
    ∧ (⟨.unicast "s", ["s"], .messagesInitial []⟩ : Emit)
        ∈ (step c4State (.joinRoom "s" "chat" "u" false)).2
    ∧ (⟨.unicast "s", ["s"], .tasksUpdateOut defaultBoard⟩ : Emit)
        ∈ (step c4State (.joinRoom "s" "chat" "u" false)).2 := by
  exact ⟨by decide, by decide, by decide, by decide, by decide, by decide⟩

end VCS
